import Mathlib

/-!
Shallow embedding of the covid-age simulation core (corona.cpp).

The source file `corona.cpp` defines `Reporter`, `Population`
(`Contagiousness`, `Tick`), `Metapopulation` (`Tick`) and `RunSimulation`.
The headers it includes (`compartment.h`, `parameters.h`, `process.h`,
`randomizer.h`) are not part of the repository snapshot, so the
`Compartment`, the parameter record, the process record and the random
capability are modelled from the specification's contracts; everything
else is translated directly from `corona.cpp`.

Counts are rationals (the C++ code uses `double` throughout); the C math
library's `exp` is a function parameter `expF` of the parameter record,
and the random capability is a record of draw functions.
-/

namespace Covid

/-- Read element `i` of a rational vector, defaulting to 0 (C++ vectors are
indexed in range; the default is never reached under the length side
conditions carried by the theorems). -/
def nth (l : List ℚ) (i : ℕ) : ℚ := l.getD i 0

/-- Read entry `(i, j)` of a matrix stored as a list of rows. -/
def nth2 (m : List (List ℚ)) (i j : ℕ) : ℚ := nth (m.getD i []) j

/-- Pointwise sum of two rational lists, the longer one padding the shorter. -/
def listAdd : List ℚ → List ℚ → List ℚ
  | [], ys => ys
  | xs, [] => xs
  | x :: xs, y :: ys => (x + y) :: listAdd xs ys

/-- Modelled from the spec: `compartment.h` is not in the repository.
A delay-structured holding buffer (spec section 3 / 4.1): the entry at
position `k` of `contents` is the amount that will mature `k` maturation
steps from now.  `Add` enrolls a cohort spread over future steps by the
cohort's sojourn-time distribution; `Mature` advances one step and returns
the amount exiting; `Size` is total occupancy.  This realises the
contract "total entered minus total matured equals current Size" whenever
each delay distribution sums to 1. -/
structure Compartment where
  contents : List ℚ
deriving DecidableEq, Repr

instance : Inhabited Compartment := ⟨⟨[]⟩⟩

/-- Total occupancy of a compartment. -/
def Compartment.size (c : Compartment) : ℚ := c.contents.sum

/-- Enroll a cohort of `n` individuals under delay distribution `d`. -/
def Compartment.add (c : Compartment) (n : ℚ) (d : List ℚ) : Compartment :=
  ⟨listAdd c.contents (d.map (fun w => n * w))⟩

/-- Advance one time step: the head of the buffer matures out. -/
def Compartment.mature (c : Compartment) : ℚ × Compartment :=
  (c.contents.headD 0, ⟨c.contents.tail⟩)

/-- Modelled from the spec: `randomizer.h` is not in the repository.
The random-number capability (spec section 6): a binomial draw given
`(n, p)` and a multinomial draw given `(n, probability vector)`.  It is
modelled as a record of pure draw functions; all theorems hold for every
such capability. -/
structure Rand where
  binomial : ℚ → ℚ → ℚ
  multinomial : ℚ → List ℚ → List ℚ

/-- Modelled from the spec: `parameters.h` is not in the repository.
The per-population quantities that scheduled parameter changes may
reassign (`Set` / `Recalculate` mutate the population's own derived-rate
cache, spec section 5): susceptibility `u`, contact matrix `cm`, clinical
fraction `y`, case-reporting probability `rho`, external-mixing factor
`tau`, and the relative infectiousness weights `fIp`, `fIa`, `fIs`. -/
structure PopRates where
  u : List ℚ
  cm : List (List ℚ)
  y : List ℚ
  rho : List ℚ
  tau : List ℚ
  fIp : List ℚ
  fIa : List ℚ
  fIs : List ℚ
deriving DecidableEq

instance : Inhabited PopRates := ⟨⟨[], [], [], [], [], [], [], []⟩⟩

/-- A scheduled parameter change: due time and the reassignment it applies
(`P.pop[p].Set(...)` of `parameters.h`, modelled from the spec as an
opaque-to-us update of the mutable rate cache). -/
structure ScheduleItem where
  t : ℚ
  apply : PopRates → PopRates

/-- The enumerated source hookpoints of `process.h` (named in the
`switch` of `Population::Tick`), plus the fallback case indexing into the
process-compartment table. -/
inductive SourceId where
  | srcS | srcE | srcEp | srcEa | srcIp | srcIs | srcH | srcIa | srcI
  | pcId (k : ℕ)
deriving DecidableEq, Repr

/-- Modelled from the spec: `process.h` is not in the repository.
A user-defined process: its source hookpoint, its compartment ids (one
row of the process-compartment table per id), per-age branch
probabilities, per-branch delay distributions, the report-kind characters
per branch, and the reporter column bindings filled in by the `Reporter`
constructor. -/
structure Process where
  source_id : SourceId
  ids : List ℕ
  names : List String
  report : List (List Char)
  prob : List (List ℚ)
  delays : List (List ℚ)
  p_cols : List ℕ
  p_ids : List ℕ
  i_cols : List ℕ
  i_ids : List ℕ
  o_cols : List ℕ
  o_ids : List ℕ
deriving DecidableEq, Repr

/-- Modelled from the spec: `parameters.h` is not in the repository.
Static per-population configuration: age-group sizes, initial rate cache,
delay-distribution specifications, the seeding schedule with its age
weights, the parameter-change schedule, the dependent-quantity
recomputation (`Recalculate`) and the observer hook. -/
structure PopParams where
  size : List ℚ
  rates0 : PopRates
  dE : List ℚ
  dIp : List ℚ
  dIa : List ℚ
  dIs : List ℚ
  dH : List ℚ
  dC : List ℚ
  seed_times : List ℚ
  seedWeights : List ℚ
  schedule : List ScheduleItem
  recalc : PopRates → PopRates
  observer : ℚ → Bool

instance : Inhabited PopParams :=
  ⟨⟨[], default, [], [], [], [], [], [], [], [], [], id, fun _ => true⟩⟩

/-- Modelled from the spec: `parameters.h` is not in the repository.
The global parameter record: populations, travel matrix, process
declarations, mode flag, time grid and the math library's `exp`. -/
structure Params where
  pop : List PopParams
  travel : List (List ℚ)
  processes : List Process
  deterministic : Bool
  time_step : ℚ
  report_every : ℚ
  time0 : ℚ
  time1 : ℚ
  expF : ℚ → ℚ

/-- Number of age groups: `P.pop[0].size.size()`. -/
def Params.nAges (P : Params) : ℕ := ((P.pop.headD default).size).length

/-- The mutable state of one `Population` object: susceptible and
recovered counts, the built-in delay compartments, the process-compartment
table `pc`, the per-compartment scratch scalars `pci` / `pco`, the two
schedule cursors, the current (schedule-mutated) rate cache, and the
population's index `p`. -/
structure PopState where
  S : List ℚ
  R : List ℚ
  E : List Compartment
  Ip : List Compartment
  Ia : List Compartment
  Is : List Compartment
  H : List Compartment
  C : List Compartment
  pc : List (List Compartment)
  pci : List ℚ
  pco : List ℚ
  seedRow : ℕ
  schedRow : ℕ
  rates : PopRates
  pindex : ℕ
deriving DecidableEq

instance : Inhabited PopState :=
  ⟨⟨[], [], [], [], [], [], [], [], [], [], [], 0, 0, default, 0⟩⟩

/-- Compartment at age `a` of a per-age compartment vector. -/
def cAt (l : List Compartment) (a : ℕ) : Compartment := l.getD a default

/-- Replace the compartment at age `a` by `f` of it. -/
def updC (l : List Compartment) (a : ℕ) (f : Compartment → Compartment) :
    List Compartment :=
  l.set a (f (cAt l a))

/-- Mature the compartment at age `a`, returning the matured amount and the
updated vector. -/
def matC (l : List Compartment) (a : ℕ) : ℚ × List Compartment :=
  ((cAt l a).mature.1, l.set a (cAt l a).mature.2)

/-- Add a cohort to the compartment at age `a`. -/
def addC (l : List Compartment) (a : ℕ) (n : ℚ) (d : List ℚ) : List Compartment :=
  updC l a (fun c => c.add n d)

/-- Process-compartment table entry for compartment id `id` and age `a`. -/
def getPC (pc : List (List Compartment)) (id a : ℕ) : Compartment :=
  cAt (pc.getD id []) a

/-- Replace entry `(id, a)` of the process-compartment table. -/
def setPC (pc : List (List Compartment)) (id a : ℕ) (c : Compartment) :
    List (List Compartment) :=
  pc.set id ((pc.getD id []).set a c)

/-- `Population::Population`: all age groups start fully susceptible, all
compartments empty; `pc` holds one row per declared process compartment. -/
def initPop (P : Params) (i : ℕ) : PopState :=
  let pp := P.pop.getD i default
  let n := pp.size.length
  let n_pc := (P.processes.map (fun pr => pr.ids.length)).sum
  { S := pp.size
    R := List.replicate n 0
    E := List.replicate n ⟨[]⟩
    Ip := List.replicate n ⟨[]⟩
    Ia := List.replicate n ⟨[]⟩
    Is := List.replicate n ⟨[]⟩
    H := List.replicate n ⟨[]⟩
    C := List.replicate n ⟨[]⟩
    pc := List.replicate n_pc (List.replicate n ⟨[]⟩)
    pci := List.replicate n_pc 0
    pco := List.replicate n_pc 0
    seedRow := 0
    schedRow := 0
    rates := pp.rates0
    pindex := i }

/-- Row index of `Reporter::operator()`:
`(unsigned)(t - t0) * n_populations * n_age_groups + p * n_age_groups + a`. -/
def rowIdx (t0 : ℚ) (npop nage : ℕ) (t : ℚ) (p a : ℕ) : ℕ :=
  (⌊t - t0⌋).toNat * npop * nage + p * nage + a

/-- The `Reporter`: dense per-(channel, row) storage, modelled as a total
function from channel and row to the stored count. -/
structure Reporter where
  t0 : ℚ
  npop : ℕ
  nage : ℕ
  data : ℕ → ℕ → ℚ

/-- Overwrite one cell of the reporter. -/
def Reporter.setCell (rep : Reporter) (c row : ℕ) (v : ℚ) : Reporter :=
  { rep with data := fun c' r' => if c' = c ∧ r' = row then v else rep.data c' r' }

/-- `rep(t, p, a, c) = v`. -/
def Reporter.write (rep : Reporter) (t : ℚ) (p a c : ℕ) (v : ℚ) : Reporter :=
  rep.setCell c (rowIdx rep.t0 rep.npop rep.nage t p a) v

/-- `rep(t, p, a, c) += v`. -/
def Reporter.accum (rep : Reporter) (t : ℚ) (p a c : ℕ) (v : ℚ) : Reporter :=
  rep.setCell c (rowIdx rep.t0 rep.npop rep.nage t p a)
    (rep.data c (rowIdx rep.t0 rep.npop rep.nage t p a) + v)

/-- The `t == (int)t` test of `Population::Tick`'s prevalence reporting. -/
def isIntTime (t : ℚ) : Bool := t.den == 1

/-- The `binomial` helper of `Population::Tick`: expectation `n * p` in
deterministic mode, a draw from the random capability otherwise. -/
def binom (P : Params) (r : Rand) (n p : ℚ) : ℚ :=
  if P.deterministic then n * p else r.binomial n p

/-- The `multinomial` helper of `Population::Tick`: proportional
allocation `n * p[i]` in deterministic mode, a draw otherwise. -/
def multinomH (P : Params) (r : Rand) (n : ℚ) (probs : List ℚ) : List ℚ :=
  if P.deterministic then probs.map (fun q => n * q) else r.multinomial n probs

/-- Force of infection for age `a`:
`lambda[a] = sum_b u[a] * cm(a,b) * infec[b]` (accumulation loop of
`Population::Tick`). -/
def lambdaAt (rates : PopRates) (a : ℕ) (infec : List ℚ) : ℚ :=
  (List.range infec.length).foldl
    (fun acc b => acc + nth rates.u a * nth2 rates.cm a b * nth infec b) 0

/-- The named per-age flow quantities of one iteration of
`Population::Tick`'s age loop. -/
structure Flows where
  nS_E : ℚ
  nE_Ipa : ℚ
  nE_Ip : ℚ
  nE_Ia : ℚ
  nIp_Is : ℚ
  n_to_report : ℚ
  n_reported : ℚ
  nIs_H : ℚ
  nH_R : ℚ
  nIa_R : ℚ
deriving DecidableEq

/-- Section "1. Built-in states" of `Population::Tick` for one age group:
the S→E draw, the E/Ip/Is/H/Ia/C maturations and enrollments, and the R
updates, in source order. -/
def builtinStep (P : Params) (r : Rand) (lam : ℚ) (a : ℕ) (st : PopState) :
    PopState × Flows :=
  let pp := P.pop.getD st.pindex default
  let nS_E := binom P r (nth st.S a) (1 - P.expF (-(lam * P.time_step)))
  let S1 := st.S.set a (nth st.S a - nS_E)
  let E1 := addC st.E a nS_E pp.dE
  let mE := matC E1 a
  let nE_Ipa := mE.1
  let nE_Ip := binom P r nE_Ipa (nth st.rates.y a)
  let nE_Ia := nE_Ipa - nE_Ip
  let Ip1 := addC st.Ip a nE_Ip pp.dIp
  let Ia1 := addC st.Ia a nE_Ia pp.dIa
  let mIp := matC Ip1 a
  let nIp_Is := mIp.1
  let Is1 := addC st.Is a nIp_Is pp.dIs
  let n_to_report := binom P r nIp_Is (nth st.rates.rho a)
  let C1 := addC st.C a n_to_report pp.dC
  let mC := matC C1 a
  let n_reported := mC.1
  let mIs := matC Is1 a
  let nIs_H := mIs.1
  let H1 := addC st.H a nIs_H pp.dH
  let mH := matC H1 a
  let nH_R := mH.1
  let R1 := st.R.set a (nth st.R a + nH_R)
  let mIa := matC Ia1 a
  let nIa_R := mIa.1
  let R2 := R1.set a (nth R1 a + nIa_R)
  ({ st with S := S1, R := R2, E := mE.2, Ip := mIp.2, Ia := mIa.2,
             Is := mIs.2, H := mH.2, C := mC.2 },
   ⟨nS_E, nE_Ipa, nE_Ip, nE_Ia, nIp_Is, n_to_report, n_reported, nIs_H, nH_R, nIa_R⟩)

/-- Mature the compartments of one process's id list for age `a`,
writing each maturation into `pco` (`pco[id] = pc[id][a].Mature()`). -/
def matureIds (a : ℕ) : List ℕ → List (List Compartment) → List ℚ →
    List (List Compartment) × List ℚ
  | [], pc, pco => (pc, pco)
  | id :: ids, pc, pco =>
      matureIds a ids (setPC pc id a (getPC pc id a).mature.2)
        (pco.set id (getPC pc id a).mature.1)

/-- "Mature process compartments" loop of `Population::Tick`. -/
def matureProcs (a : ℕ) : List Process → List (List Compartment) → List ℚ →
    List (List Compartment) × List ℚ
  | [], pc, pco => (pc, pco)
  | pr :: procs, pc, pco =>
      let s := matureIds a pr.ids pc pco
      matureProcs a procs s.1 s.2

/-- The `switch (process.source_id)` of `Population::Tick`: resolve a
process's entering count from a built-in flow or, in the fallback case,
from another process compartment's maturation `pco[source_id]`. -/
def sourceOf : SourceId → Flows → List ℚ → ℚ
  | .srcS, f, _ => f.nS_E
  | .srcE, f, _ => f.nE_Ipa
  | .srcEp, f, _ => f.nE_Ip
  | .srcEa, f, _ => f.nE_Ia
  | .srcIp, f, _ => f.nIp_Is
  | .srcIs, f, _ => f.nIs_H
  | .srcH, f, _ => f.nH_R
  | .srcIa, f, _ => f.nIa_R
  | .srcI, f, _ => f.nH_R + f.nIa_R
  | .pcId k, _, pco => nth pco k

/-- Seed one process's compartments for age `a`: enroll `nd_out[c]` into
compartment `ids[c]` and record it in `pci[ids[c]]`, `c` counting up. -/
def seedIds (a : ℕ) (nd : List ℚ) (delays : List (List ℚ)) :
    ℕ → List ℕ → List (List Compartment) → List ℚ →
    List (List Compartment) × List ℚ
  | _, [], pc, pci => (pc, pci)
  | c, id :: ids, pc, pci =>
      seedIds a nd delays (c + 1) ids
        (setPC pc id a ((getPC pc id a).add (nth nd c) (delays.getD c [])))
        (pci.set id (nth nd c))

/-- "Seed processes" loop of `Population::Tick`: for each process resolve
`n_entering` from its source hookpoint, split it across its compartments
by the multinomial helper, and enroll each part. -/
def seedProcs (P : Params) (r : Rand) (a : ℕ) (fl : Flows) :
    List Process → List (List Compartment) → List ℚ → List ℚ →
    List (List Compartment) × List ℚ
  | [], pc, pci, _ => (pc, pci)
  | pr :: procs, pc, pci, pco =>
      let n_entering := sourceOf pr.source_id fl pco
      let nd := multinomH P r n_entering (pr.prob.getD a [])
      let s := seedIds a nd pr.delays 0 pr.ids pc pci
      seedProcs P r a fl procs s.1 s.2 pco

/-- Prevalence snapshots for the declared process prevalence columns
(`rep(t,p,a,p_cols[i]) = pc[p_ids[i]][a].Size()`). -/
def writePCols (t : ℚ) (p a : ℕ) (pc : List (List Compartment)) :
    List (ℕ × ℕ) → Reporter → Reporter
  | [], rep => rep
  | ci :: rest, rep =>
      writePCols t p a pc rest (rep.write t p a ci.1 (getPC pc ci.2 a).size)

/-- Process part of the prevalence snapshot, over all processes. -/
def prevProcs (t : ℚ) (p a : ℕ) (pc : List (List Compartment)) :
    List Process → Reporter → Reporter
  | [], rep => rep
  | pr :: procs, rep =>
      prevProcs t p a pc procs (writePCols t p a pc (pr.p_cols.zip pr.p_ids) rep)

/-- Section "0. Report prevalences" of `Population::Tick`: channels 0-5
then the process prevalence columns. -/
def reportPrev (t : ℚ) (procs : List Process) (st : PopState) (a : ℕ)
    (rep : Reporter) : Reporter :=
  let p := st.pindex
  let rep := rep.write t p a 0 (nth st.S a)
  let rep := rep.write t p a 1 (cAt st.E a).size
  let rep := rep.write t p a 2 (cAt st.Ip a).size
  let rep := rep.write t p a 3 (cAt st.Is a).size
  let rep := rep.write t p a 4 (cAt st.Ia a).size
  let rep := rep.write t p a 5 (nth st.R a)
  prevProcs t p a st.pc procs rep

/-- Incidence accumulation for the declared process incidence columns
(`rep(t,p,a,i_cols[i]) += pci[i_ids[i]]`). -/
def addICols (t : ℚ) (p a : ℕ) (pci : List ℚ) :
    List (ℕ × ℕ) → Reporter → Reporter
  | [], rep => rep
  | ci :: rest, rep =>
      addICols t p a pci rest (rep.accum t p a ci.1 (nth pci ci.2))

/-- Outcidence accumulation for the declared process outcidence columns
(`rep(t,p,a,o_cols[i]) += pco[o_ids[i]]`). -/
def addOCols (t : ℚ) (p a : ℕ) (pco : List ℚ) :
    List (ℕ × ℕ) → Reporter → Reporter
  | [], rep => rep
  | ci :: rest, rep =>
      addOCols t p a pco rest (rep.accum t p a ci.1 (nth pco ci.2))

/-- Process part of the incidence/outcidence accumulation. -/
def incProcs (t : ℚ) (p a : ℕ) (pci pco : List ℚ) :
    List Process → Reporter → Reporter
  | [], rep => rep
  | pr :: procs, rep =>
      incProcs t p a pci pco procs
        (addOCols t p a pco (pr.o_cols.zip pr.o_ids)
          (addICols t p a pci (pr.i_cols.zip pr.i_ids) rep))

/-- Section "3. Report incidence / outcidence" of `Population::Tick`:
channels 6-8 then the process incidence/outcidence columns. -/
def reportInc (t : ℚ) (procs : List Process) (st : PopState) (a : ℕ)
    (fl : Flows) (rep : Reporter) : Reporter :=
  let p := st.pindex
  let rep := rep.accum t p a 6 fl.nIp_Is
  let rep := rep.accum t p a 7 fl.n_reported
  let rep := rep.accum t p a 8 fl.nE_Ia
  incProcs t p a st.pci st.pco procs rep

/-- One iteration of `Population::Tick`'s age loop: prevalence snapshot
(only at integer times), built-in transitions, process maturation and
seeding, then incidence/outcidence accumulation. -/
def popTickAge (P : Params) (r : Rand) (t : ℚ) (lam : ℚ) (a : ℕ)
    (st : PopState) (rep : Reporter) : PopState × Reporter :=
  let rep1 := if isIntTime t then reportPrev t P.processes st a rep else rep
  let bres := builtinStep P r lam a st
  let st1 := bres.1
  let fl := bres.2
  let m := matureProcs a P.processes st1.pc st1.pco
  let s := seedProcs P r a fl P.processes m.1 st1.pci m.2
  let st2 := { st1 with pc := s.1, pci := s.2, pco := m.2 }
  let rep2 := reportInc t P.processes st2 a fl rep1
  (st2, rep2)

/-- `Population::Tick`: compute the force-of-infection vector, run the
age loop, and return the observer's continue-signal. -/
def popTick (P : Params) (r : Rand) (t : ℚ) (st : PopState)
    (infec : List ℚ) (rep : Reporter) : PopState × Reporter × Bool :=
  let lambda := (List.range infec.length).map (fun a => lambdaAt st.rates a infec)
  let res := (List.range infec.length).foldl
    (fun acc a => popTickAge P r t (nth lambda a) a acc.1 acc.2) (st, rep)
  (res.1, res.2, (P.pop.getD st.pindex default).observer t)

/-- The `add` lambda of `Population::Contagiousness`: move `n` seeded
individuals of age group `age` from S into E, or fail if fewer than `n`
susceptibles remain. -/
def seedAdd (pp : PopParams) (st : PopState) (age : ℕ) (n : ℚ) :
    Except String PopState :=
  if nth st.S age < n then
    .error "Not enough unexposed individuals to seed new infections."
  else
    .ok { st with S := st.S.set age (nth st.S age - n), E := addC st.E age n pp.dE }

/-- The stochastic seeding scan: first age `a < len` whose multinomial
count equals 1. -/
def firstIdxOne (storage : List ℚ) (len : ℕ) : Option ℕ :=
  (List.range len).find? (fun a => nth storage a == 1)

/-- One seed event: deterministic mode adds `weights[a]` to every age
group; stochastic mode draws one age by `Multinomial(1, weights)` and
adds a single individual there. -/
def seedEvent (P : Params) (pp : PopParams) (r : Rand) (st : PopState) :
    Except String PopState :=
  if P.deterministic then
    (List.range st.S.length).foldlM
      (fun st a => seedAdd pp st a (nth pp.seedWeights a)) st
  else
    match firstIdxOne (r.multinomial 1 pp.seedWeights) st.S.length with
    | some a => seedAdd pp st a 1
    | none => .ok st

/-- The seeding `while` loop of `Population::Contagiousness`, with fuel
bounded by the number of remaining seed events. -/
def doSeeding (P : Params) (pp : PopParams) (r : Rand) (t : ℚ) :
    ℕ → PopState → Except String PopState
  | 0, st => .ok st
  | fuel + 1, st =>
      if st.seedRow < pp.seed_times.length ∧ pp.seed_times.getD st.seedRow 0 ≤ t then
        match seedEvent P pp r st with
        | .error e => .error e
        | .ok st1 => doSeeding P pp r t fuel { st1 with seedRow := st1.seedRow + 1 }
      else .ok st

instance : Inhabited ScheduleItem := ⟨⟨0, id⟩⟩

/-- The scheduled-changes `while` loop of `Population::Contagiousness`. -/
def doSchedule (pp : PopParams) (t : ℚ) : ℕ → PopState → PopState
  | 0, st => st
  | fuel + 1, st =>
      if st.schedRow < pp.schedule.length ∧ (pp.schedule.getD st.schedRow default).t ≤ t then
        doSchedule pp t fuel
          { st with rates := (pp.schedule.getD st.schedRow default).apply st.rates,
                    schedRow := st.schedRow + 1 }
      else st

/-- Per-age contagiousness: the relative-infectiousness-weighted
occupancy of Ip/Ia/Is over the age group's total size, zero when the
size is zero. -/
def contagOf (pp : PopParams) (st : PopState) (a : ℕ) : ℚ :=
  if nth pp.size a = 0 then 0
  else (nth st.rates.fIp a * (cAt st.Ip a).size
      + nth st.rates.fIa a * (cAt st.Ia a).size
      + nth st.rates.fIs a * (cAt st.Is a).size) / nth pp.size a

/-- `Population::Contagiousness`: seeding, scheduled changes plus
recalculation, then the contagiousness vector. -/
def contagiousness (P : Params) (r : Rand) (t : ℚ) (st : PopState) :
    Except String (PopState × List ℚ) :=
  let pp := P.pop.getD st.pindex default
  match doSeeding P pp r t pp.seed_times.length st with
  | .error e => .error e
  | .ok st1 =>
      let st2 := doSchedule pp t pp.schedule.length st1
      let st3 := { st2 with rates := pp.recalc st2.rates }
      .ok (st3, (List.range P.nAges).map (contagOf pp st3))

/-- The contagiousness pass of `Metapopulation::Tick` over all
populations, in order, propagating any seeding failure. -/
def contagAll (P : Params) (r : Rand) (t : ℚ) :
    List PopState → Except String (List PopState × List (List ℚ))
  | [] => .ok ([], [])
  | st :: rest =>
      match contagiousness P r t st with
      | .error e => .error e
      | .ok sc =>
          match contagAll P r t rest with
          | .error e => .error e
          | .ok rs => .ok (sc.1 :: rs.1, sc.2 :: rs.2)

/-- Incoming infectious pressure at destination `i`, age `a`:
`infec[i][a] = sum_j travel(j,i) * contag[j][a] * (j != i ? tau[j][a] : 1)`. -/
def infecAt (P : Params) (sts : List PopState) (cgs : List (List ℚ))
    (i a : ℕ) : ℚ :=
  (List.range cgs.length).foldl
    (fun acc j => acc + nth2 P.travel j i * nth (cgs.getD j []) a *
      (if j ≠ i then nth (sts.getD j default).rates.tau a else 1)) 0

/-- The population-update loop of `Metapopulation::Tick`:
`keep_going = keep_going && pops[i].Tick(...)` — the right-hand side is
evaluated (the population ticked) only while `keep_going` is true. -/
def tickFold (P : Params) (r : Rand) (t : ℚ) (infec : List (List ℚ)) :
    Reporter → Bool → ℕ → List PopState → List PopState × Reporter × Bool
  | rep, keep, _, [] => ([], rep, keep)
  | rep, true, i, st :: rest =>
      let res := popTick P r t st (infec.getD i []) rep
      let rec1 := tickFold P r t infec res.2.1 res.2.2 (i + 1) rest
      (res.1 :: rec1.1, rec1.2.1, rec1.2.2)
  | rep, false, i, st :: rest =>
      let rec1 := tickFold P r t infec rep false (i + 1) rest
      (st :: rec1.1, rec1.2.1, rec1.2.2)

/-- `Metapopulation::Tick`: contagiousness of every population, the
travel-coupled incoming-force matrix, then every population's tick. -/
def metaTick (P : Params) (r : Rand) (t : ℚ) (sts : List PopState)
    (rep : Reporter) : Except String (List PopState × Reporter × Bool) :=
  match contagAll P r t sts with
  | .error e => .error e
  | .ok sc =>
      let infec := (List.range sc.1.length).map
        (fun i => (List.range P.nAges).map (fun a => infecAt P sc.1 sc.2 i a))
      let res := tickFold P r t infec rep true 0 sc.1
      .ok res

/-- One row of the `Reporter` constructor's process loop: assign the next
column index to each report character, or fail on an unrecognized one. -/
def resolveRow (id : ℕ) : List Char → Process × ℕ → Except String (Process × ℕ)
  | [], acc => .ok acc
  | ch :: rest, acc =>
      let prc := acc.1
      let n := acc.2
      if ch = 'p' then
        resolveRow id rest
          ({ prc with p_cols := prc.p_cols ++ [n], p_ids := prc.p_ids ++ [id] }, n + 1)
      else if ch = 'i' then
        resolveRow id rest
          ({ prc with i_cols := prc.i_cols ++ [n], i_ids := prc.i_ids ++ [id] }, n + 1)
      else if ch = 'o' then
        resolveRow id rest
          ({ prc with o_cols := prc.o_cols ++ [n], o_ids := prc.o_ids ++ [id] }, n + 1)
      else .error ("Unrecognized process report type " ++ String.mk [ch] ++ ".")

/-- All rows of one process declaration. -/
def resolveProc (pr : Process) (n0 : ℕ) : Except String (Process × ℕ) :=
  (List.range pr.names.length).foldlM
    (fun acc j => resolveRow (pr.ids.getD j 0) (pr.report.getD j []) acc) (pr, n0)

/-- Column assignment across all process declarations, starting after the
nine built-in channels. -/
def resolveAll : List Process → ℕ → Except String (List Process)
  | [], _ => .ok []
  | pr :: procs, n =>
      match resolveProc pr n with
      | .error e => .error e
      | .ok rn =>
          match resolveAll procs rn.2 with
          | .error e => .error e
          | .ok rest => .ok (rn.1 :: rest)

/-- The `Reporter` constructor: the time-step/reporting-interval check,
then column assignment for every declared process report. -/
def mkReporter (P : Params) : Except String (Reporter × List Process) :=
  if P.time_step ≠ 1 / P.report_every then
    .error "TODO: PopulationReporter requires P.time_step = 1 / P.report_every."
  else
    match resolveAll P.processes 9 with
    | .error e => .error e
    | .ok procs =>
        .ok ({ t0 := P.time0, npop := P.pop.length, nage := P.nAges,
               data := fun _ _ => 0 }, procs)

/-- `Metapopulation::Metapopulation`: one `Population` per configured
subpopulation. -/
def initStates (P : Params) : List PopState :=
  (List.range P.pop.length).map (initPop P)

/-- The tick count of `RunSimulation`:
`(unsigned)((1 + P.time1 - P.time0) / P.time_step)`. -/
def timeStepsOf (P : Params) : ℕ :=
  (⌊(1 + P.time1 - P.time0) / P.time_step⌋).toNat

/-- The simulation loop of `RunSimulation`: tick at
`time0 + ts * time_step`, recursing while the continue-signal holds and
returning the reporter recorded so far on the first false. -/
def runAux (P : Params) (r : Rand) : Reporter → List PopState → ℕ → ℕ →
    Except String Reporter
  | rep, _, _, 0 => .ok rep
  | rep, sts, ts, fuel + 1 =>
      match metaTick P r (P.time0 + (ts : ℚ) * P.time_step) sts rep with
      | .error e => .error e
      | .ok res =>
          if res.2.2 then runAux P r res.2.1 res.1 (ts + 1) fuel
          else .ok res.2.1

/-- `RunSimulation`: build the metapopulation and the reporter, then run
the time loop. -/
def runSimulation (P : Params) (r : Rand) : Except String Reporter :=
  match mkReporter P with
  | .error e => .error e
  | .ok rp =>
      let Pr := { P with processes := rp.2 }
      runAux Pr r rp.1 (initStates P) 0 (timeStepsOf P)

/-! ### Derived quantities and predicates used by the theorems -/

/-- Core-chain occupancy of one age group:
`S + E.Size + Ip.Size + Ia.Size + Is.Size + H.Size + R`. -/
def groupSum (st : PopState) (a : ℕ) : ℚ :=
  nth st.S a + (cAt st.E a).size + (cAt st.Ip a).size + (cAt st.Ia a).size
    + (cAt st.Is a).size + (cAt st.H a).size + nth st.R a

/-- Shape of a population state: its per-age vectors have the configured
number of age groups and it sits at its own index. -/
def WFpop (P : Params) (i : ℕ) (st : PopState) : Prop :=
  st.pindex = i ∧ st.S.length = P.nAges ∧ st.R.length = P.nAges ∧
  st.E.length = P.nAges ∧ st.Ip.length = P.nAges ∧ st.Ia.length = P.nAges ∧
  st.Is.length = P.nAges ∧ st.H.length = P.nAges

/-- Every built-in delay distribution of every population is a probability
mass (sums to 1): the compartment contract's conservation premise. -/
def pmfOK (P : Params) : Prop :=
  ∀ pp ∈ P.pop, pp.dE.sum = 1 ∧ pp.dIp.sum = 1 ∧ pp.dIa.sum = 1 ∧
    pp.dIs.sum = 1 ∧ pp.dH.sum = 1

/-- Conservation statement: each age group of each population still holds
exactly its configured initial size in the core chain. -/
def Conserved (P : Params) (sts : List PopState) : Prop :=
  ∀ i < sts.length, ∀ a < P.nAges,
    groupSum (sts.getD i default) a = nth (P.pop.getD i default).size a

/-- Well-shaped state list: one state per configured population, each
well shaped at its own index. -/
def WFs (P : Params) (sts : List PopState) : Prop :=
  sts.length = P.pop.length ∧ ∀ i < sts.length, WFpop P i (sts.getD i default)

/-- Configuration well-formedness: every population has the same number
of age groups as population 0 (the loops of `corona.cpp` index every
population by `P.pop[0].size.size()` age groups). -/
def sizesOK (P : Params) : Prop :=
  ∀ pp ∈ P.pop, pp.size.length = P.nAges

/-- The prevalence channels: built-in channels 0-5 plus every process
prevalence column. -/
def prevChans (procs : List Process) : List ℕ :=
  [0, 1, 2, 3, 4, 5] ++ procs.foldr (fun pr acc => pr.p_cols ++ acc) []

/-- The incidence/outcidence channels: built-in channels 6-8 plus every
process incidence and outcidence column. -/
def incChans (procs : List Process) : List ℕ :=
  [6, 7, 8] ++ procs.foldr (fun pr acc => pr.i_cols ++ pr.o_cols ++ acc) []

/-- All process-compartment ids, across processes in declaration order. -/
def allIds (procs : List Process) : List ℕ :=
  procs.foldr (fun pr acc => pr.ids ++ acc) []

/-- The branch allocation a process receives for age `a` this tick: its
source hookpoint's flow split by the multinomial helper over its per-age
branch probabilities. -/
def procEnter (P : Params) (r : Rand) (a : ℕ) (fl : Flows) (pco : List ℚ)
    (pr : Process) : List ℚ :=
  multinomH P r (sourceOf pr.source_id fl pco) (pr.prob.getD a [])

/-- The same reporter with all cells zeroed (used to state additivity of
the incidence accumulation). -/
def zeroR (rep : Reporter) : Reporter := { rep with data := fun _ _ => 0 }

/-- State list of a successful metapopulation tick (empty on error). -/
def okStates (e : Except String (List PopState × Reporter × Bool)) :
    List PopState :=
  match e with
  | .ok res => res.1
  | .error _ => []

/-- Reporter of a successful metapopulation tick (zero-size dummy on error). -/
def okRep (e : Except String (List PopState × Reporter × Bool)) : Reporter :=
  match e with
  | .ok res => res.2.1
  | .error _ => ⟨0, 0, 0, fun _ _ => 0⟩

/-- Continue-signal of a successful metapopulation tick. -/
def okBool (e : Except String (List PopState × Reporter × Bool)) : Bool :=
  match e with
  | .ok res => res.2.2
  | .error _ => false

/-- Whether a metapopulation tick succeeded. -/
def okIsOk (e : Except String (List PopState × Reporter × Bool)) : Bool :=
  match e with
  | .ok _ => true
  | .error _ => false

/-- State list of a successful contagiousness pass. -/
def okCtag (e : Except String (List PopState × List (List ℚ))) :
    List PopState :=
  match e with
  | .ok sc => sc.1
  | .error _ => []

/-! ### Concrete configurations used by witnesses and counterexamples -/

/-- Rates for a one-age-group population with zero transmission
(`contact` matrix 0). -/
def ratesZ : PopRates :=
  ⟨[1], [[0]], [1], [1], [1], [1], [1], [1]⟩

/-- One age group of 100 individuals, one seed event of 10 individuals at
time 0, an exposed-stage delay of one step, observer always true. -/
def ppSeed : PopParams :=
  { size := [100], rates0 := ratesZ, dE := [0, 1], dIp := [1], dIa := [1],
    dIs := [1], dH := [1], dC := [1], seed_times := [0], seedWeights := [10],
    schedule := [], recalc := id, observer := fun _ => true }

/-- Same population but its observer immediately requests a stop. -/
def ppStop : PopParams :=
  { ppSeed with observer := fun _ => false }

/-- Same population but only 5 susceptibles, fewer than the 10 requested
by its seed event. -/
def ppOver : PopParams :=
  { ppSeed with size := [5] }

/-- Deterministic single-population scenario: zero transmission, one seed
event of 10 individuals at t = 0. -/
def Pseed : Params :=
  { pop := [ppSeed], travel := [[1]], processes := [], deterministic := true,
    time_step := 1, report_every := 1, time0 := 0, time1 := 10,
    expF := fun _ => 1 }

/-- Two-population scenario: population 0 stops the run at once,
population 1 has a pending seeded cohort whose maturation would be
observable in its exposed compartment. -/
def Pstop : Params :=
  { Pseed with pop := [ppStop, ppSeed], travel := [[1, 0], [0, 1]] }

/-- Scenario whose single seed event requests more individuals than are
susceptible. -/
def Pover : Params :=
  { Pseed with pop := [ppOver] }

/-- A process sourced from the S→E hookpoint with one compartment,
reporting prevalence, incidence and outcidence. -/
def prcSE : Process :=
  { source_id := .srcS, ids := [0], names := ["death"],
    report := [['p', 'i', 'o']], prob := [[1]], delays := [[1]],
    p_cols := [9], p_ids := [0], i_cols := [10], i_ids := [0],
    o_cols := [11], o_ids := [0] }

/-- The scenario configuration extended with the process `prcSE`. -/
def Pproc : Params :=
  { Pseed with processes := [prcSE] }

/-- A trivial random capability (all theorems hold for every capability;
witnesses use this one). -/
def rand0 : Rand := ⟨fun _ _ => 0, fun _ _ => []⟩

/-- The seeding scenario in stochastic mode. -/
def PseedStoch : Params := { Pseed with deterministic := false }

/-- A random capability whose multinomial draw always selects the first
category. -/
def randOne : Rand := ⟨fun _ _ => 0, fun _ _ => [1]⟩

/-- The non-integer time 1/2, given by its normal form so that its
denominator is syntactically 2. -/
def half : ℚ := ⟨1, 2, by norm_num, by norm_num⟩

/-- An all-zero reporter matching the scenario configurations. -/
def rep0 : Reporter := ⟨0, 1, 1, fun _ _ => 0⟩

/-- An all-zero reporter for the two-population scenario. -/
def repStop : Reporter := ⟨0, 2, 1, fun _ _ => 0⟩

end Covid

namespace Covid

/-! ### Basic lemmas -/

theorem listAdd_sum (xs ys : List ℚ) : (listAdd xs ys).sum = xs.sum + ys.sum := by
  induction xs generalizing ys with
  | nil => cases ys <;> simp [listAdd]
  | cons x xs ih =>
    cases ys with
    | nil => simp [listAdd]
    | cons y ys => simp [listAdd, ih]; ring

theorem sum_map_mul (n : ℚ) (d : List ℚ) :
    (d.map (fun w => n * w)).sum = n * d.sum := by
  induction d with
  | nil => simp
  | cons x xs ih => simp [ih]; ring

theorem Compartment.size_add (c : Compartment) (n : ℚ) (d : List ℚ) :
    (c.add n d).size = c.size + n * d.sum := by
  simp [Compartment.add, Compartment.size, listAdd_sum, sum_map_mul]

theorem Compartment.size_mature (c : Compartment) :
    (c.mature).2.size = c.size - (c.mature).1 := by
  cases h : c.contents with
  | nil => simp [Compartment.mature, Compartment.size, h]
  | cons x xs => simp [Compartment.mature, Compartment.size, h]

theorem getD_set_self {α : Type} (l : List α) (i : ℕ) (v d : α) (h : i < l.length) :
    (l.set i v).getD i d = v := by
  simp [List.getD, List.getElem?_set_self, h]

theorem getD_set_ne {α : Type} (l : List α) (i j : ℕ) (v d : α) (h : i ≠ j) :
    (l.set i v).getD j d = l.getD j d := by
  simp [List.getD, List.getElem?_set_ne h]

theorem nth_set_self (l : List ℚ) (i : ℕ) (v : ℚ) (h : i < l.length) :
    nth (l.set i v) i = v := getD_set_self l i v 0 h

theorem nth_set_ne (l : List ℚ) (i j : ℕ) (v : ℚ) (h : i ≠ j) :
    nth (l.set i v) j = nth l j := getD_set_ne l i j v 0 h

theorem cAt_set_self (l : List Compartment) (i : ℕ) (c : Compartment) (h : i < l.length) :
    cAt (l.set i c) i = c := getD_set_self l i c default h

theorem cAt_set_ne (l : List Compartment) (i j : ℕ) (c : Compartment) (h : i ≠ j) :
    cAt (l.set i c) j = cAt l j := getD_set_ne l i j c default h

theorem foldl_add_range (f : ℕ → ℚ) (n : ℕ) :
    (List.range n).foldl (fun acc b => acc + f b) 0 = ∑ b ∈ Finset.range n, f b := by
  induction n with
  | zero => simp
  | succ m ih => rw [List.range_succ, List.foldl_append, Finset.sum_range_succ, ih]; simp

/-! ### Claim C7 -/

/-- C7: `Population::Contagiousness` computes, for every age group `a`,
contagiousness `= (fIp[a]·Ip[a].Size + fIa[a]·Ia[a].Size + fIs[a]·Is[a].Size) / size[a]`
when the age group's total size is nonzero, and exactly 0 when that size
is zero (the division is guarded). -/
theorem C7_contagiousness_guard (pp : PopParams) (st : PopState) (a : ℕ) :
    (nth pp.size a ≠ 0 →
      contagOf pp st a =
        (nth st.rates.fIp a * (cAt st.Ip a).size
          + nth st.rates.fIa a * (cAt st.Ia a).size
          + nth st.rates.fIs a * (cAt st.Is a).size) / nth pp.size a) ∧
    (nth pp.size a = 0 → contagOf pp st a = 0) := by
  constructor <;> intro h <;> simp [contagOf, h]

theorem C7_contagiousness_guard_witness :
    nth ppSeed.size 0 ≠ 0 ∧
      contagOf ppSeed (initPop Pseed 0) 0 =
        (nth (initPop Pseed 0).rates.fIp 0 * (cAt (initPop Pseed 0).Ip 0).size
          + nth (initPop Pseed 0).rates.fIa 0 * (cAt (initPop Pseed 0).Ia 0).size
          + nth (initPop Pseed 0).rates.fIs 0 * (cAt (initPop Pseed 0).Is 0).size)
          / nth ppSeed.size 0 :=
  ⟨by decide, (C7_contagiousness_guard ppSeed (initPop Pseed 0) 0).1 (by decide)⟩

/-! ### Claim C6 -/

/-- C6: in `Metapopulation::Tick` the incoming force at destination `i`,
age `a`, is `Σ_j travel(j→i) · contagiousness[j][a] · m` with `m = 1`
when `j = i` and the source population's external-mixing factor `tau`
when `j ≠ i`. -/
theorem C6_incoming_force (P : Params) (sts : List PopState)
    (cgs : List (List ℚ)) (i a : ℕ) :
    infecAt P sts cgs i a =
      ∑ j ∈ Finset.range cgs.length,
        nth2 P.travel j i * nth (cgs.getD j []) a *
          (if j = i then 1 else nth (sts.getD j default).rates.tau a) := by
  unfold infecAt
  rw [foldl_add_range (fun j => nth2 P.travel j i * nth (cgs.getD j []) a *
    (if j ≠ i then nth (sts.getD j default).rates.tau a else 1))]
  refine Finset.sum_congr rfl (fun j _ => ?_)
  by_cases h : j = i <;> simp [h]

/-! ### Claim C5 -/

/-- C5: in `Population::Tick` the force of infection is
`λ[a] = Σ_b susceptibility[a]·contact[a][b]·incoming_force[b]`, and the
S→E flow is the binomial helper applied with `n` the current susceptible
count and `p = 1 − exp(−λ[a]·Δt)` — a draw in stochastic mode, the
expectation `n·p` in deterministic mode; the flow is subtracted from S
and the same amount enrolled into E. -/
theorem C5_SE_flow (P : Params) (r : Rand) (lam : ℚ) (a : ℕ)
    (st : PopState) (infec : List ℚ) (n p : ℚ) :
    lambdaAt st.rates a infec =
      ∑ b ∈ Finset.range infec.length,
        nth st.rates.u a * nth2 st.rates.cm a b * nth infec b
    ∧ (builtinStep P r lam a st).2.nS_E =
        binom P r (nth st.S a) (1 - P.expF (-(lam * P.time_step)))
    ∧ (P.deterministic = true → binom P r n p = n * p)
    ∧ (P.deterministic = false → binom P r n p = r.binomial n p)
    ∧ (a < st.S.length →
        nth (builtinStep P r lam a st).1.S a =
          nth st.S a - (builtinStep P r lam a st).2.nS_E)
    ∧ (builtinStep P r lam a st).1.E =
        (matC (addC st.E a ((builtinStep P r lam a st).2.nS_E)
          (P.pop.getD st.pindex default).dE) a).2 := by
  refine ⟨?_, rfl, ?_, ?_, ?_, rfl⟩
  · unfold lambdaAt
    exact foldl_add_range (fun b => nth st.rates.u a * nth2 st.rates.cm a b * nth infec b) _
  · intro h; simp [binom, h]
  · intro h; simp [binom, h]
  · intro h
    show nth (st.S.set a (nth st.S a - (builtinStep P r lam a st).2.nS_E)) a = _
    exact nth_set_self _ _ _ h

theorem C5_SE_flow_witness :
    (Pseed.deterministic = true ∧ binom Pseed rand0 3 (1/2) = 3 * (1/2))
    ∧ (0 < (initPop Pseed 0).S.length ∧
        nth (builtinStep Pseed rand0 0 0 (initPop Pseed 0)).1.S 0 =
          nth (initPop Pseed 0).S 0 - (builtinStep Pseed rand0 0 0 (initPop Pseed 0)).2.nS_E) :=
  ⟨⟨rfl, (C5_SE_flow Pseed rand0 0 0 (initPop Pseed 0) [0] 3 (1/2)).2.2.1 rfl⟩,
   ⟨by decide, (C5_SE_flow Pseed rand0 0 0 (initPop Pseed 0) [0] 3 (1/2)).2.2.2.2.1 (by decide)⟩⟩

/-! ### Claim C3 -/

/-- C3: during seeding in `Population::Contagiousness`, injecting more
individuals than the current susceptible count of the targeted age group
raises the fatal error (and a failing tick aborts the run); otherwise the
count is subtracted from S and added to E. -/
theorem C3_seeding_guard (pp : PopParams) (st : PopState) (age : ℕ) (n : ℚ)
    (P : Params) (r : Rand) (rep : Reporter) (sts : List PopState)
    (ts fuel : ℕ) (e : String) :
    (nth st.S age < n →
      seedAdd pp st age n =
        .error "Not enough unexposed individuals to seed new infections.")
    ∧ (n ≤ nth st.S age →
      seedAdd pp st age n =
        .ok { st with S := st.S.set age (nth st.S age - n),
                      E := addC st.E age n pp.dE })
    ∧ (metaTick P r (P.time0 + (ts : ℚ) * P.time_step) sts rep = .error e →
      runAux P r rep sts ts (fuel + 1) = .error e) := by
  refine ⟨?_, ?_, ?_⟩
  · intro h; simp [seedAdd, h]
  · intro h; simp [seedAdd, not_lt.2 h]
  · intro h; simp [runAux, h]

theorem C3_seeding_guard_witness :
    nth (initPop Pover 0).S 0 < 10 ∧
      seedAdd ppOver (initPop Pover 0) 0 10 =
        .error "Not enough unexposed individuals to seed new infections." :=
  ⟨by decide,
   (C3_seeding_guard ppOver (initPop Pover 0) 0 10 Pover rand0 rep0 [] 0 0 "e").1 (by decide)⟩

end Covid

namespace Covid

/-- Eta expansion for a successful metapopulation tick result. -/
theorem okEta (e : Except String (List PopState × Reporter × Bool))
    (h : okIsOk e = true) : e = .ok (okStates e, okRep e, okBool e) := by
  cases e with
  | ok res => rfl
  | error msg => simp [okIsOk] at h

/-! ### Claim C8 -/

/-- C8: the driver derives the tick count as
`(1 + horizon_end − horizon_start) / step_size` (truncated to an
integer), calls `Metapopulation::Tick` once per step index at time
`time0 + index·step_size`, stops immediately on the first false return
with the reporter populated so far and no error, and otherwise recurses
to the next step. -/
theorem C8_driver (P : Params) (r : Rand) (rep rep1 : Reporter)
    (sts sts1 : List PopState) (ts fuel : ℕ) (rp : Reporter × List Process) :
    timeStepsOf P = (⌊(1 + P.time1 - P.time0) / P.time_step⌋).toNat
    ∧ (mkReporter P = .ok rp →
        runSimulation P r =
          runAux { P with processes := rp.2 } r rp.1 (initStates P) 0 (timeStepsOf P))
    ∧ runAux P r rep sts ts 0 = .ok rep
    ∧ (metaTick P r (P.time0 + (ts : ℚ) * P.time_step) sts rep = .ok (sts1, rep1, true) →
        runAux P r rep sts ts (fuel + 1) = runAux P r rep1 sts1 (ts + 1) fuel)
    ∧ (metaTick P r (P.time0 + (ts : ℚ) * P.time_step) sts rep = .ok (sts1, rep1, false) →
        runAux P r rep sts ts (fuel + 1) = .ok rep1) := by
  refine ⟨rfl, ?_, rfl, ?_, ?_⟩
  · intro h; simp [runSimulation, h]
  · intro h; simp [runAux, h]
  · intro h; simp [runAux, h]

theorem C8_driver_witness :
    (mkReporter Pseed = .ok (⟨0, 1, 1, fun _ _ => 0⟩, ([] : List Process)) ∧
      runSimulation Pseed rand0 =
        runAux { Pseed with processes := [] } rand0 ⟨0, 1, 1, fun _ _ => 0⟩
          (initStates Pseed) 0 (timeStepsOf Pseed))
    ∧ (metaTick Pstop rand0 (Pstop.time0 + ((0 : ℕ) : ℚ) * Pstop.time_step)
          (initStates Pstop) repStop =
        .ok (okStates (metaTick Pstop rand0 (Pstop.time0 + ((0 : ℕ) : ℚ) * Pstop.time_step)
               (initStates Pstop) repStop),
             okRep (metaTick Pstop rand0 (Pstop.time0 + ((0 : ℕ) : ℚ) * Pstop.time_step)
               (initStates Pstop) repStop), false) ∧
       runAux Pstop rand0 repStop (initStates Pstop) 0 (4 + 1) =
         .ok (okRep (metaTick Pstop rand0 (Pstop.time0 + ((0 : ℕ) : ℚ) * Pstop.time_step)
           (initStates Pstop) repStop))) := by
  have hmk : mkReporter Pseed = .ok (⟨0, 1, 1, fun _ _ => 0⟩, ([] : List Process)) := by
    norm_num [mkReporter, resolveAll, Pseed, ppSeed, Params.nAges]
  have hok : okIsOk (metaTick Pstop rand0 (Pstop.time0 + ((0 : ℕ) : ℚ) * Pstop.time_step)
      (initStates Pstop) repStop) = true := by
    norm_num [metaTick, contagAll, contagiousness, doSeeding, seedEvent, seedAdd,
      doSchedule, initStates, initPop, Pstop, Pseed, ppSeed, ppStop, ratesZ, nth,
      nth2, cAt, addC, updC, matC, listAdd, Compartment.add, Compartment.mature,
      Compartment.size, binom, multinomH, okIsOk, firstIdxOne, tickFold, infecAt,
      Params.nAges, repStop, rand0, List.foldlM, List.range_succ]
  have hb : okBool (metaTick Pstop rand0 (Pstop.time0 + ((0 : ℕ) : ℚ) * Pstop.time_step)
      (initStates Pstop) repStop) = false := by
    norm_num [metaTick, contagAll, contagiousness, doSeeding, seedEvent, seedAdd,
      doSchedule, popTick, popTickAge, builtinStep, matureProcs, seedProcs,
      initStates, initPop, Pstop, Pseed, ppSeed, ppStop, ratesZ, nth, nth2, cAt,
      addC, updC, matC, listAdd, Compartment.add, Compartment.mature,
      Compartment.size, binom, multinomH, okBool, firstIdxOne, tickFold, infecAt,
      Params.nAges, repStop, rand0, List.foldlM, List.range_succ]
  have hmeta := okEta _ hok
  rw [hb] at hmeta
  exact ⟨⟨hmk, (C8_driver Pseed rand0 rep0 rep0 [] [] 0 0
      (⟨0, 1, 1, fun _ _ => 0⟩, [])).2.1 hmk⟩,
    ⟨hmeta, (C8_driver Pstop rand0 repStop
      (okRep (metaTick Pstop rand0 (Pstop.time0 + ((0 : ℕ) : ℚ) * Pstop.time_step)
        (initStates Pstop) repStop))
      (initStates Pstop)
      (okStates (metaTick Pstop rand0 (Pstop.time0 + ((0 : ℕ) : ℚ) * Pstop.time_step)
        (initStates Pstop) repStop))
      0 4 (⟨0, 1, 1, fun _ _ => 0⟩, [])).2.2.2.2 hmeta⟩⟩

/-! ### Claim C1 (corrected: the loop short-circuits) -/

/-- After the continue-flag has become false, no further population is
ticked: states and reporter pass through unchanged. -/
theorem tickFold_skip (P : Params) (r : Rand) (t : ℚ) (infec : List (List ℚ)) :
    ∀ (l : List PopState) (rep : Reporter) (i : ℕ),
      tickFold P r t infec rep false i l = (l, rep, false) := by
  intro l
  induction l with
  | nil => intro rep i; rfl
  | cons st rest ih => intro rep i; simp [tickFold, ih]

/-- C1 (amended): in `Metapopulation::Tick`'s update loop
(`keep_going = keep_going && pops[i].Tick(...)`) a population is ticked
only while `keep_going` is still true: once it is false the remaining
populations' states and the reporter pass through untouched and the
overall continue-signal is false; while it is true, each executed tick's
boolean is folded in by logical AND. -/
theorem C1_shortcircuit_and (P : Params) (r : Rand) (t : ℚ)
    (infec : List (List ℚ)) (rep rep' : Reporter) (sts rest : List PopState)
    (st st' : PopState) (i : ℕ) (b : Bool) :
    tickFold P r t infec rep false i sts = (sts, rep, false)
    ∧ (popTick P r t st (infec.getD i []) rep = (st', rep', b) →
        tickFold P r t infec rep true i (st :: rest) =
          ((st' :: (tickFold P r t infec rep' b (i + 1) rest).1),
            (tickFold P r t infec rep' b (i + 1) rest).2.1,
            (tickFold P r t infec rep' b (i + 1) rest).2.2))
    ∧ (popTick P r t st (infec.getD i []) rep = (st', rep', false) →
        tickFold P r t infec rep true i (st :: rest) = (st' :: rest, rep', false)) := by
  refine ⟨tickFold_skip P r t infec sts rep i, ?_, ?_⟩
  · intro h
    simp only [tickFold]
    rw [h]
  · intro h
    simp only [tickFold]
    rw [h]
    simp [tickFold_skip]

theorem C1_shortcircuit_and_witness :
    popTick Pstop rand0 0 (initStates Pstop).head! [] repStop =
      ((popTick Pstop rand0 0 (initStates Pstop).head! [] repStop).1,
       (popTick Pstop rand0 0 (initStates Pstop).head! [] repStop).2.1, false)
    ∧ tickFold Pstop rand0 0 [] repStop true 0
        ((initStates Pstop).head! :: [(initStates Pstop).getD 1 default]) =
      ((popTick Pstop rand0 0 (initStates Pstop).head! [] repStop).1
          :: [(initStates Pstop).getD 1 default],
        (popTick Pstop rand0 0 (initStates Pstop).head! [] repStop).2.1, false) := by
  have h : popTick Pstop rand0 0 (initStates Pstop).head! (([] : List (List ℚ)).getD 0 []) repStop =
      ((popTick Pstop rand0 0 (initStates Pstop).head! [] repStop).1,
       (popTick Pstop rand0 0 (initStates Pstop).head! [] repStop).2.1, false) := by
    norm_num [popTick, popTickAge, initStates, initPop, Pstop, Pseed, ppSeed, ppStop,
      nth, cAt, binom, lambdaAt, Params.nAges, rand0, List.head!, List.range_succ,
      List.range_zero, List.getD]
  exact ⟨h, (C1_shortcircuit_and Pstop rand0 0 [] repStop
      (popTick Pstop rand0 0 (initStates Pstop).head! [] repStop).2.1
      [] [(initStates Pstop).getD 1 default] (initStates Pstop).head!
      (popTick Pstop rand0 0 (initStates Pstop).head! [] repStop).1 0 false).2.2 h⟩

/-- C1 counterexample: with population 0's observer returning false,
population 1's `Tick` is NOT executed for the step — after
`Metapopulation::Tick` its exposed compartment still holds the unmatured
cohort `[0, 10]`, whereas executing `Population::Tick` on it (with its
resolved incoming force) would have advanced it to `[10]`; the overall
continue-signal is false.  This refutes "Population.Tick is executed for
every population in that step regardless of whether an earlier population
in the same step returned false". -/
theorem C1_counterexample :
    (cAt ((okStates (metaTick Pstop rand0 0 (initStates Pstop) repStop)).getD 1
        default).E 0).contents = [0, 10]
    ∧ (cAt ((popTick Pstop rand0 0
        ((okCtag (contagAll Pstop rand0 0 (initStates Pstop))).getD 1 default)
        [0] repStop).1.E) 0).contents = [10]
    ∧ okBool (metaTick Pstop rand0 0 (initStates Pstop) repStop) = false := by
  refine ⟨?_, ?_, ?_⟩ <;>
    norm_num [metaTick, contagAll, contagiousness, doSeeding, seedEvent, seedAdd,
      doSchedule, popTick, popTickAge, builtinStep, matureProcs, seedProcs,
      initStates, initPop, Pstop, Pseed, ppSeed, ppStop, ratesZ, nth, nth2, cAt,
      addC, updC, matC, getPC, setPC, listAdd, Compartment.add, Compartment.mature,
      Compartment.size, binom, multinomH, lambdaAt, okStates, okCtag, okBool,
      firstIdxOne, tickFold, infecAt, Params.nAges, repStop, rand0, sourceOf,
      List.foldlM, List.range_succ]

end Covid

namespace Covid

/-- Deterministic seeding over a duplicate-free list of age groups: every
listed age with enough susceptibles gets `weights[a]` moved from S into a
fresh E cohort; everything else is untouched. -/
theorem seedFoldDet (pp : PopParams) (l : List ℕ) :
    ∀ st : PopState, l.Nodup →
    (∀ a ∈ l, a < st.S.length ∧ a < st.E.length ∧ nth pp.seedWeights a ≤ nth st.S a) →
    ∃ st', l.foldlM (fun st a => seedAdd pp st a (nth pp.seedWeights a)) st = .ok st'
      ∧ (∀ a ∈ l, nth st'.S a = nth st.S a - nth pp.seedWeights a
          ∧ cAt st'.E a = (cAt st.E a).add (nth pp.seedWeights a) pp.dE)
      ∧ (∀ a, a ∉ l → nth st'.S a = nth st.S a ∧ cAt st'.E a = cAt st.E a)
      ∧ st'.S.length = st.S.length ∧ st'.E.length = st.E.length
      ∧ st'.R = st.R ∧ st'.Ip = st.Ip ∧ st'.Ia = st.Ia ∧ st'.Is = st.Is
      ∧ st'.H = st.H ∧ st'.C = st.C ∧ st'.pc = st.pc ∧ st'.pci = st.pci
      ∧ st'.pco = st.pco ∧ st'.seedRow = st.seedRow
      ∧ st'.schedRow = st.schedRow ∧ st'.rates = st.rates
      ∧ st'.pindex = st.pindex := by
  induction l with
  | nil =>
    intro st _ _
    exact ⟨st, rfl, by simp, fun a _ => ⟨rfl, rfl⟩, rfl, rfl, rfl, rfl, rfl, rfl,
      rfl, rfl, rfl, rfl, rfl, rfl, rfl, rfl, rfl⟩
  | cons a l ih =>
    intro st hnd hok
    have ha := hok a (List.mem_cons_self a l)
    have hadd : seedAdd pp st a (nth pp.seedWeights a) =
        .ok { st with S := st.S.set a (nth st.S a - nth pp.seedWeights a),
                      E := addC st.E a (nth pp.seedWeights a) pp.dE } := by
      simp [seedAdd, not_lt.2 ha.2.2]
    set st1 : PopState :=
      { st with S := st.S.set a (nth st.S a - nth pp.seedWeights a),
                E := addC st.E a (nth pp.seedWeights a) pp.dE } with hst1
    have hnd1 : l.Nodup := (List.nodup_cons.mp hnd).2
    have hna : a ∉ l := (List.nodup_cons.mp hnd).1
    have hok1 : ∀ b ∈ l, b < st1.S.length ∧ b < st1.E.length ∧
        nth pp.seedWeights b ≤ nth st1.S b := by
      intro b hb
      have hne : a ≠ b := fun h => hna (h ▸ hb)
      have hb0 := hok b (List.mem_cons_of_mem a hb)
      refine ⟨?_, ?_, ?_⟩
      · simpa [hst1] using hb0.1
      · simpa [hst1, addC, updC] using hb0.2.1
      · simpa [hst1, nth_set_ne _ _ _ _ hne] using hb0.2.2
    obtain ⟨st', hfold, hmem, hout, hrest⟩ := ih st1 hnd1 hok1
    refine ⟨st', ?_, ?_, ?_, ?_⟩
    · simpa [List.foldlM, hadd] using hfold
    · intro b hb
      rcases List.mem_cons.mp hb with hba | hbl
      · subst hba
        have h1 := hout b hna
        constructor
        · rw [h1.1, hst1]
          exact nth_set_self _ _ _ ha.1
        · rw [h1.2, hst1]
          show cAt (addC st.E b (nth pp.seedWeights b) pp.dE) b = _
          simp [addC, updC, cAt_set_self _ _ _ ha.2.1]
      · have h1 := hmem b hbl
        have hne : a ≠ b := fun h => hna (h ▸ hbl)
        constructor
        · rw [h1.1, hst1]
          simp [nth_set_ne _ _ _ _ hne]
        · rw [h1.2, hst1]
          simp [addC, updC, cAt_set_ne _ _ _ _ hne]
    · intro b hb
      have hne : a ≠ b := fun h => hb (h ▸ List.mem_cons_self a l)
      have hbl : b ∉ l := fun h => hb (List.mem_cons_of_mem a h)
      have h1 := hout b hbl
      constructor
      · rw [h1.1, hst1]; exact nth_set_ne _ _ _ _ hne
      · rw [h1.2, hst1]; simp [addC, updC, cAt_set_ne _ _ _ _ hne]
    · simpa [hst1, addC, updC] using hrest

/-- C4: each due seed event injects individuals from Susceptible directly
into Exposed — in deterministic mode `weights[a]` individuals for every
age group `a` (fractional allocation by weight), in stochastic mode a
single individual in the one age group selected by the categorical
`Multinomial(1, weights)` draw; in the concrete zero-transmission
scenario with one seed event of 10 individuals at t = 0, immediately
after the t = 0 tick Exposed holds 10 and Susceptible has dropped from
100 to 90. -/
theorem C4_seed_injection (P : Params) (pp : PopParams) (r : Rand)
    (st : PopState) (age : ℕ) :
    (P.deterministic = true →
      (∀ a ∈ List.range st.S.length,
        a < st.S.length ∧ a < st.E.length ∧ nth pp.seedWeights a ≤ nth st.S a) →
      ∃ st', seedEvent P pp r st = .ok st'
        ∧ (∀ a < st.S.length,
            nth st'.S a = nth st.S a - nth pp.seedWeights a
            ∧ cAt st'.E a = (cAt st.E a).add (nth pp.seedWeights a) pp.dE)
        ∧ (∀ a, ¬ a < st.S.length →
            nth st'.S a = nth st.S a ∧ cAt st'.E a = cAt st.E a))
    ∧ (P.deterministic = false →
        firstIdxOne (r.multinomial 1 pp.seedWeights) st.S.length = some age →
        seedEvent P pp r st = seedAdd pp st age 1)
    ∧ ((okStates (metaTick Pseed rand0 0 (initStates Pseed) rep0)).getD 0 default).S = [90]
    ∧ (cAt ((okStates (metaTick Pseed rand0 0 (initStates Pseed) rep0)).getD 0
        default).E 0).size = 10 := by
  refine ⟨?_, ?_, ?_, ?_⟩
  · intro hdet hok
    obtain ⟨st', hfold, hmem, hout, _⟩ :=
      seedFoldDet pp (List.range st.S.length) st (List.nodup_range _) hok
    refine ⟨st', ?_, ?_, ?_⟩
    · simpa [seedEvent, hdet] using hfold
    · intro a ha
      exact hmem a (List.mem_range.mpr ha)
    · intro a ha
      exact hout a (fun h => ha (List.mem_range.mp h))
  · intro hdet hfind
    simp [seedEvent, hdet, hfind]
  · norm_num [metaTick, contagAll, contagiousness, doSeeding, seedEvent, seedAdd,
      doSchedule, popTick, popTickAge, builtinStep, matureProcs, seedProcs,
      initStates, initPop, Pseed, ppSeed, ratesZ, nth, nth2, cAt, addC, updC,
      matC, getPC, setPC, listAdd, Compartment.add, Compartment.mature,
      Compartment.size, binom, multinomH, lambdaAt, okStates, firstIdxOne,
      tickFold, infecAt, Params.nAges, rep0, rand0, sourceOf, List.foldlM,
      List.range_succ]
  · norm_num [metaTick, contagAll, contagiousness, doSeeding, seedEvent, seedAdd,
      doSchedule, popTick, popTickAge, builtinStep, matureProcs, seedProcs,
      initStates, initPop, Pseed, ppSeed, ratesZ, nth, nth2, cAt, addC, updC,
      matC, getPC, setPC, listAdd, Compartment.add, Compartment.mature,
      Compartment.size, binom, multinomH, lambdaAt, okStates, firstIdxOne,
      tickFold, infecAt, Params.nAges, rep0, rand0, sourceOf, List.foldlM,
      List.range_succ]

theorem C4_seed_injection_witness :
    (Pseed.deterministic = true ∧
      ∃ st', seedEvent Pseed ppSeed rand0 (initPop Pseed 0) = .ok st'
        ∧ (∀ a < (initPop Pseed 0).S.length,
            nth st'.S a = nth (initPop Pseed 0).S a - nth ppSeed.seedWeights a
            ∧ cAt st'.E a =
                (cAt (initPop Pseed 0).E a).add (nth ppSeed.seedWeights a) ppSeed.dE)
        ∧ (∀ a, ¬ a < (initPop Pseed 0).S.length →
            nth st'.S a = nth (initPop Pseed 0).S a
            ∧ cAt st'.E a = cAt (initPop Pseed 0).E a))
    ∧ (PseedStoch.deterministic = false ∧
        seedEvent PseedStoch ppSeed randOne (initPop PseedStoch 0) =
          seedAdd ppSeed (initPop PseedStoch 0) 0 1) := by
  have hdet : Pseed.deterministic = true := rfl
  have hok : ∀ a ∈ List.range (initPop Pseed 0).S.length,
      a < (initPop Pseed 0).S.length ∧ a < (initPop Pseed 0).E.length ∧
        nth ppSeed.seedWeights a ≤ nth (initPop Pseed 0).S a := by
    intro a ha
    have h1 : (initPop Pseed 0).S.length = 1 := by
      simp [initPop, Pseed, ppSeed]
    have ha0 : a = 0 := Nat.lt_one_iff.mp (h1 ▸ List.mem_range.mp ha)
    subst ha0
    refine ⟨by simp [h1], ?_, ?_⟩
    · simp [initPop, Pseed, ppSeed]
    · norm_num [initPop, Pseed, ppSeed, nth]
  have hst : PseedStoch.deterministic = false := rfl
  have hfind : firstIdxOne (randOne.multinomial 1 ppSeed.seedWeights)
      (initPop PseedStoch 0).S.length = some 0 := by
    norm_num [firstIdxOne, randOne, initPop, PseedStoch, Pseed, ppSeed, nth,
      List.find?, List.range_succ]
  exact ⟨⟨hdet, (C4_seed_injection Pseed ppSeed rand0 (initPop Pseed 0) 0).1 hdet hok⟩,
    ⟨hst, (C4_seed_injection PseedStoch ppSeed randOne (initPop PseedStoch 0) 0).2.1
      hst hfind⟩⟩

end Covid

namespace Covid

/-! ### Generic fold and indexing lemmas -/

theorem foldl_inv {α β : Type} (f : β → α → β) (l : List α) (I : β → Prop)
    (hstep : ∀ b a, a ∈ l → I b → I (f b a)) :
    ∀ b0, I b0 → I (l.foldl f b0) := by
  induction l with
  | nil => intro b0 h0; exact h0
  | cons a l ih =>
    intro b0 h0
    exact ih (fun b x hx hb => hstep b x (List.mem_cons_of_mem a hx) hb) _
      (hstep b0 a (List.mem_cons_self a l) h0)

theorem getD_map_range {α : Type} (f : ℕ → α) (n i : ℕ) (d : α) (h : i < n) :
    ((List.range n).map f).getD i d = f i := by
  rw [List.getD_eq_getElem _ _ (by simpa using h)]
  simp

theorem getD_mem {α : Type} (l : List α) (i : ℕ) (d : α) (h : i < l.length) :
    l.getD i d ∈ l := by
  rw [List.getD_eq_getElem _ _ h]
  exact List.getElem_mem h

/-! ### Field and length preservation of the built-in transition step -/

theorem builtinStep_fields (P : Params) (r : Rand) (lam : ℚ) (a : ℕ) (st : PopState) :
    (builtinStep P r lam a st).1.pc = st.pc
    ∧ (builtinStep P r lam a st).1.pci = st.pci
    ∧ (builtinStep P r lam a st).1.pco = st.pco
    ∧ (builtinStep P r lam a st).1.seedRow = st.seedRow
    ∧ (builtinStep P r lam a st).1.schedRow = st.schedRow
    ∧ (builtinStep P r lam a st).1.rates = st.rates
    ∧ (builtinStep P r lam a st).1.pindex = st.pindex :=
  ⟨rfl, rfl, rfl, rfl, rfl, rfl, rfl⟩

theorem builtinStep_lengths (P : Params) (r : Rand) (lam : ℚ) (a : ℕ) (st : PopState) :
    (builtinStep P r lam a st).1.S.length = st.S.length
    ∧ (builtinStep P r lam a st).1.R.length = st.R.length
    ∧ (builtinStep P r lam a st).1.E.length = st.E.length
    ∧ (builtinStep P r lam a st).1.Ip.length = st.Ip.length
    ∧ (builtinStep P r lam a st).1.Ia.length = st.Ia.length
    ∧ (builtinStep P r lam a st).1.Is.length = st.Is.length
    ∧ (builtinStep P r lam a st).1.H.length = st.H.length
    ∧ (builtinStep P r lam a st).1.C.length = st.C.length := by
  refine ⟨?_, ?_, ?_, ?_, ?_, ?_, ?_, ?_⟩ <;>
    simp [builtinStep, addC, updC, matC]

/-- The built-in chain conserves the core-chain occupancy of every age
group: each maturation is enrolled whole into the next built-in state. -/
theorem builtinStep_groupSum (P : Params) (r : Rand) (lam : ℚ) (a : ℕ)
    (st : PopState)
    (hS : a < st.S.length) (hR : a < st.R.length) (hE : a < st.E.length)
    (hIp : a < st.Ip.length) (hIa : a < st.Ia.length) (hIs : a < st.Is.length)
    (hH : a < st.H.length)
    (hdE : (P.pop.getD st.pindex default).dE.sum = 1)
    (hdIp : (P.pop.getD st.pindex default).dIp.sum = 1)
    (hdIa : (P.pop.getD st.pindex default).dIa.sum = 1)
    (hdIs : (P.pop.getD st.pindex default).dIs.sum = 1)
    (hdH : (P.pop.getD st.pindex default).dH.sum = 1) :
    ∀ a', groupSum (builtinStep P r lam a st).1 a' = groupSum st a' := by
  intro a'
  have hdE' : (P.pop[st.pindex]?.getD default).dE.sum = 1 := by
    simpa [List.getD_eq_getElem?_getD] using hdE
  have hdIp' : (P.pop[st.pindex]?.getD default).dIp.sum = 1 := by
    simpa [List.getD_eq_getElem?_getD] using hdIp
  have hdIa' : (P.pop[st.pindex]?.getD default).dIa.sum = 1 := by
    simpa [List.getD_eq_getElem?_getD] using hdIa
  have hdIs' : (P.pop[st.pindex]?.getD default).dIs.sum = 1 := by
    simpa [List.getD_eq_getElem?_getD] using hdIs
  have hdH' : (P.pop[st.pindex]?.getD default).dH.sum = 1 := by
    simpa [List.getD_eq_getElem?_getD] using hdH
  by_cases h : a' = a
  · subst h
    simp only [builtinStep, groupSum]
    simp [addC, updC, matC, nth_set_self, nth_set_ne, cAt_set_self, cAt_set_ne,
      Compartment.size_add, Compartment.size_mature, hS, hR, hE, hIp, hIa, hIs,
      hH, hdE', hdIp', hdIa', hdIs', hdH']
    ring
  · have hne : a ≠ a' := fun hx => h hx.symm
    simp only [builtinStep, groupSum]
    simp [addC, updC, matC, nth_set_ne _ _ _ _ hne, cAt_set_ne _ _ _ _ hne]

end Covid

namespace Covid

/-- A successful seeding `add` conserves the core chain and every field
other than S and E. -/
theorem seedAdd_pres (pp : PopParams) (st st' : PopState) (age : ℕ) (n : ℚ)
    (h : seedAdd pp st age n = .ok st')
    (hS : age < st.S.length) (hE : age < st.E.length) (hdE : pp.dE.sum = 1) :
    (∀ a', groupSum st' a' = groupSum st a')
    ∧ st'.S.length = st.S.length ∧ st'.E.length = st.E.length
    ∧ st'.R = st.R ∧ st'.Ip = st.Ip ∧ st'.Ia = st.Ia ∧ st'.Is = st.Is
    ∧ st'.H = st.H ∧ st'.C = st.C ∧ st'.pc = st.pc ∧ st'.pci = st.pci
    ∧ st'.pco = st.pco ∧ st'.seedRow = st.seedRow ∧ st'.schedRow = st.schedRow
    ∧ st'.rates = st.rates ∧ st'.pindex = st.pindex := by
  unfold seedAdd at h
  by_cases hlt : nth st.S age < n
  · simp [hlt] at h
  · simp only [hlt, if_neg, if_false] at h
    rw [Except.ok.injEq] at h
    subst h
    refine ⟨?_, by simp, by simp [addC, updC], rfl, rfl, rfl, rfl, rfl, rfl,
      rfl, rfl, rfl, rfl, rfl, rfl, rfl⟩
    intro a'
    by_cases ha : a' = age
    · subst ha
      simp [groupSum, addC, updC, nth_set_self _ _ _ hS, cAt_set_self _ _ _ hE,
        Compartment.size_add, hdE]
      try ring
    · have hne : age ≠ a' := fun hx => ha hx.symm
      simp [groupSum, addC, updC, nth_set_ne _ _ _ _ hne, cAt_set_ne _ _ _ _ hne]

/-- A successful deterministic seeding fold conserves the core chain. -/
theorem seedFoldOk (pp : PopParams) (l : List ℕ) :
    ∀ st st', (∀ a ∈ l, a < st.S.length ∧ a < st.E.length) → pp.dE.sum = 1 →
    l.foldlM (fun st a => seedAdd pp st a (nth pp.seedWeights a)) st = .ok st' →
    (∀ a', groupSum st' a' = groupSum st a')
    ∧ st'.S.length = st.S.length ∧ st'.E.length = st.E.length
    ∧ st'.R = st.R ∧ st'.Ip = st.Ip ∧ st'.Ia = st.Ia ∧ st'.Is = st.Is
    ∧ st'.H = st.H ∧ st'.C = st.C ∧ st'.pc = st.pc ∧ st'.pci = st.pci
    ∧ st'.pco = st.pco ∧ st'.seedRow = st.seedRow ∧ st'.schedRow = st.schedRow
    ∧ st'.rates = st.rates ∧ st'.pindex = st.pindex := by
  induction l with
  | nil =>
    intro st st' _ _ h
    have : st = st' := by simpa [List.foldlM, pure, Except.pure] using h
    subst this
    exact ⟨fun _ => rfl, rfl, rfl, rfl, rfl, rfl, rfl, rfl, rfl, rfl, rfl, rfl,
      rfl, rfl, rfl, rfl⟩
  | cons a l ih =>
    intro st st' hb hdE h
    rw [List.foldlM_cons] at h
    cases hadd : seedAdd pp st a (nth pp.seedWeights a) with
    | error e => rw [hadd] at h; exact absurd h (by simp [Bind.bind, Except.bind])
    | ok st1 =>
      rw [hadd] at h
      simp only [Bind.bind, Except.bind] at h
      have hab := hb a (List.mem_cons_self a l)
      have h1 := seedAdd_pres pp st st1 a _ hadd hab.1 hab.2 hdE
      have hb1 : ∀ b ∈ l, b < st1.S.length ∧ b < st1.E.length := by
        intro b hbl
        have := hb b (List.mem_cons_of_mem a hbl)
        exact ⟨h1.2.1 ▸ this.1, h1.2.2.1 ▸ this.2⟩
      have h2 := ih st1 st' hb1 hdE h
      refine ⟨fun a' => (h2.1 a').trans (h1.1 a'), ?_⟩
      obtain ⟨_, e1, e2, e3, e4, e5, e6, e7, e8, e9, e10, e11, e12, e13, e14, e15⟩ := h1
      obtain ⟨_, f1, f2, f3, f4, f5, f6, f7, f8, f9, f10, f11, f12, f13, f14, f15⟩ := h2
      exact ⟨f1.trans e1, f2.trans e2, f3.trans e3, f4.trans e4, f5.trans e5,
        f6.trans e6, f7.trans e7, f8.trans e8, f9.trans e9, f10.trans e10,
        f11.trans e11, f12.trans e12, f13.trans e13, f14.trans e14, f15.trans e15⟩

/-- A successful seed event conserves the core chain. -/
theorem seedEvent_pres (P : Params) (pp : PopParams) (r : Rand)
    (st st' : PopState) (h : seedEvent P pp r st = .ok st')
    (hlenE : st.E.length = st.S.length) (hdE : pp.dE.sum = 1) :
    (∀ a', groupSum st' a' = groupSum st a')
    ∧ st'.S.length = st.S.length ∧ st'.E.length = st.E.length
    ∧ st'.R = st.R ∧ st'.Ip = st.Ip ∧ st'.Ia = st.Ia ∧ st'.Is = st.Is
    ∧ st'.H = st.H ∧ st'.C = st.C ∧ st'.pc = st.pc ∧ st'.pci = st.pci
    ∧ st'.pco = st.pco ∧ st'.seedRow = st.seedRow ∧ st'.schedRow = st.schedRow
    ∧ st'.rates = st.rates ∧ st'.pindex = st.pindex := by
  unfold seedEvent at h
  by_cases hdet : P.deterministic
  · rw [if_pos hdet] at h
    refine seedFoldOk pp (List.range st.S.length) st st' ?_ hdE h
    intro a ha
    have := List.mem_range.mp ha
    exact ⟨this, hlenE ▸ this⟩
  · rw [if_neg hdet] at h
    cases hfind : firstIdxOne (r.multinomial 1 pp.seedWeights) st.S.length with
    | none =>
      rw [hfind] at h
      rw [Except.ok.injEq] at h
      subst h
      exact ⟨fun _ => rfl, rfl, rfl, rfl, rfl, rfl, rfl, rfl, rfl, rfl, rfl,
        rfl, rfl, rfl, rfl, rfl⟩
    | some age =>
      rw [hfind] at h
      have hmem : age ∈ List.range st.S.length :=
        List.mem_of_find?_eq_some hfind
      have hlt := List.mem_range.mp hmem
      exact seedAdd_pres pp st st' age 1 h hlt (hlenE ▸ hlt) hdE

/-- The seeding loop conserves the core chain whenever it succeeds. -/
theorem doSeeding_pres (P : Params) (pp : PopParams) (r : Rand) (t : ℚ) :
    ∀ (fuel : ℕ) (st st' : PopState),
    doSeeding P pp r t fuel st = .ok st' →
    st.E.length = st.S.length → pp.dE.sum = 1 →
    (∀ a', groupSum st' a' = groupSum st a')
    ∧ st'.S.length = st.S.length ∧ st'.E.length = st.E.length
    ∧ st'.R = st.R ∧ st'.Ip = st.Ip ∧ st'.Ia = st.Ia ∧ st'.Is = st.Is
    ∧ st'.H = st.H ∧ st'.C = st.C ∧ st'.pc = st.pc ∧ st'.pci = st.pci
    ∧ st'.pco = st.pco ∧ st'.rates = st.rates ∧ st'.pindex = st.pindex := by
  intro fuel
  induction fuel with
  | zero =>
    intro st st' h _ _
    rw [doSeeding, Except.ok.injEq] at h
    subst h
    exact ⟨fun _ => rfl, rfl, rfl, rfl, rfl, rfl, rfl, rfl, rfl, rfl, rfl, rfl,
      rfl, rfl⟩
  | succ fuel ih =>
    intro st st' h hlenE hdE
    rw [doSeeding] at h
    by_cases hc : st.seedRow < pp.seed_times.length ∧ pp.seed_times.getD st.seedRow 0 ≤ t
    · rw [if_pos hc] at h
      cases hev : seedEvent P pp r st with
      | error e => rw [hev] at h; exact absurd h (by simp)
      | ok st1 =>
        rw [hev] at h
        have h1 := seedEvent_pres P pp r st st1 hev hlenE hdE
        have h2 := ih { st1 with seedRow := st1.seedRow + 1 } st' h
          (show st1.E.length = st1.S.length from
            (h1.2.2.1.trans hlenE).trans h1.2.1.symm) hdE
        refine ⟨fun a' => (h2.1 a').trans (h1.1 a'), ?_⟩
        obtain ⟨_, e1, e2, e3, e4, e5, e6, e7, e8, e9, e10, e11, _, _, e14, e15⟩ := h1
        obtain ⟨_, f1, f2, f3, f4, f5, f6, f7, f8, f9, f10, f11, f12, f13⟩ := h2
        exact ⟨f1.trans e1, f2.trans e2, f3.trans e3, f4.trans e4, f5.trans e5,
          f6.trans e6, f7.trans e7, f8.trans e8, f9.trans e9, f10.trans e10,
          f11.trans e11, f12.trans e14, f13.trans e15⟩
    · rw [if_neg hc, Except.ok.injEq] at h
      subst h
      exact ⟨fun _ => rfl, rfl, rfl, rfl, rfl, rfl, rfl, rfl, rfl, rfl, rfl,
        rfl, rfl, rfl⟩

/-- Scheduled parameter changes touch only the rate cache and the
schedule cursor. -/
theorem doSchedule_pres (pp : PopParams) (t : ℚ) :
    ∀ (fuel : ℕ) (st : PopState),
    (∀ a', groupSum (doSchedule pp t fuel st) a' = groupSum st a')
    ∧ (doSchedule pp t fuel st).S = st.S
    ∧ (doSchedule pp t fuel st).E = st.E
    ∧ (doSchedule pp t fuel st).R = st.R
    ∧ (doSchedule pp t fuel st).Ip = st.Ip
    ∧ (doSchedule pp t fuel st).Ia = st.Ia
    ∧ (doSchedule pp t fuel st).Is = st.Is
    ∧ (doSchedule pp t fuel st).H = st.H
    ∧ (doSchedule pp t fuel st).C = st.C
    ∧ (doSchedule pp t fuel st).pc = st.pc
    ∧ (doSchedule pp t fuel st).pci = st.pci
    ∧ (doSchedule pp t fuel st).pco = st.pco
    ∧ (doSchedule pp t fuel st).seedRow = st.seedRow
    ∧ (doSchedule pp t fuel st).pindex = st.pindex := by
  intro fuel
  induction fuel with
  | zero =>
    intro st
    exact ⟨fun _ => rfl, rfl, rfl, rfl, rfl, rfl, rfl, rfl, rfl, rfl, rfl, rfl,
      rfl, rfl⟩
  | succ fuel ih =>
    intro st
    rw [doSchedule]
    by_cases hc : st.schedRow < pp.schedule.length ∧
        (pp.schedule.getD st.schedRow default).t ≤ t
    · rw [if_pos hc]
      have h := ih { st with
        rates := (pp.schedule.getD st.schedRow default).apply st.rates,
        schedRow := st.schedRow + 1 }
      exact h
    · rw [if_neg hc]
      exact ⟨fun _ => rfl, rfl, rfl, rfl, rfl, rfl, rfl, rfl, rfl, rfl, rfl,
        rfl, rfl, rfl⟩

/-- A successful `Contagiousness` conserves the core chain and the state
shape. -/
theorem contag_pres (P : Params) (r : Rand) (t : ℚ) (i : ℕ) (st : PopState)
    (sc : PopState × List ℚ) (h : contagiousness P r t st = .ok sc)
    (hWF : WFpop P i st) (hi : i < P.pop.length) (hpmf : pmfOK P) :
    (∀ a', groupSum sc.1 a' = groupSum st a') ∧ WFpop P i sc.1 := by
  obtain ⟨hpi, hS, hR, hE, hIp, hIa, hIs, hH⟩ := hWF
  have hppmem : P.pop.getD st.pindex default ∈ P.pop := by
    rw [hpi]; exact getD_mem _ _ _ hi
  have hdE := (hpmf _ hppmem).1
  simp only [contagiousness] at h
  cases hseed : doSeeding P (P.pop.getD st.pindex default) r t
      (P.pop.getD st.pindex default).seed_times.length st with
  | error e => rw [hseed] at h; exact absurd h (by simp)
  | ok st1 =>
    rw [hseed] at h
    simp only [Except.ok.injEq] at h
    have h1 := doSeeding_pres P (P.pop.getD st.pindex default) r t _ st st1 hseed
      (hE.trans hS.symm) hdE
    have h2 := doSchedule_pres (P.pop.getD st.pindex default) t
      (P.pop.getD st.pindex default).schedule.length st1
    obtain ⟨g1, s1S, s1E, s1R, s1Ip, s1Ia, s1Is, s1H, s1C, s1pc, s1pci, s1pco,
      s1rates, s1pi⟩ := h1
    obtain ⟨g2, e2S, e2E, e2R, e2Ip, e2Ia, e2Is, e2H, e2C, e2pc, e2pci, e2pco,
      e2seed, e2pi⟩ := h2
    have hsc1S : sc.1.S = st1.S := by rw [← h]; exact e2S
    have hsc1E : sc.1.E = st1.E := by rw [← h]; exact e2E
    have hsc1R : sc.1.R = st1.R := by rw [← h]; exact e2R
    have hsc1Ip : sc.1.Ip = st1.Ip := by rw [← h]; exact e2Ip
    have hsc1Ia : sc.1.Ia = st1.Ia := by rw [← h]; exact e2Ia
    have hsc1Is : sc.1.Is = st1.Is := by rw [← h]; exact e2Is
    have hsc1H : sc.1.H = st1.H := by rw [← h]; exact e2H
    have hsc1pi : sc.1.pindex = st1.pindex := by rw [← h]; exact e2pi
    constructor
    · intro a'
      have hgs : groupSum sc.1 a' =
          groupSum (doSchedule (P.pop.getD st.pindex default) t
            (P.pop.getD st.pindex default).schedule.length st1) a' := by
        rw [← h]; rfl
      rw [hgs, g2 a', g1 a']
    · refine ⟨hsc1pi.trans (s1pi.trans hpi), ?_, ?_, ?_, ?_, ?_, ?_, ?_⟩
      · rw [hsc1S, s1S]; exact hS
      · rw [hsc1R, s1R]; exact hR
      · rw [hsc1E, s1E]; exact hE
      · rw [hsc1Ip, s1Ip]; exact hIp
      · rw [hsc1Ia, s1Ia]; exact hIa
      · rw [hsc1Is, s1Is]; exact hIs
      · rw [hsc1H, s1H]; exact hH

end Covid

namespace Covid

/-- One age iteration of `Population::Tick` conserves the core chain and
the state shape (the process stage touches only `pc`/`pci`/`pco`). -/
theorem popTickAge_pres (P : Params) (r : Rand) (t lam : ℚ) (a : ℕ)
    (st : PopState) (rep : Reporter)
    (hS : a < st.S.length) (hR : a < st.R.length) (hE : a < st.E.length)
    (hIp : a < st.Ip.length) (hIa : a < st.Ia.length) (hIs : a < st.Is.length)
    (hH : a < st.H.length)
    (hdE : (P.pop.getD st.pindex default).dE.sum = 1)
    (hdIp : (P.pop.getD st.pindex default).dIp.sum = 1)
    (hdIa : (P.pop.getD st.pindex default).dIa.sum = 1)
    (hdIs : (P.pop.getD st.pindex default).dIs.sum = 1)
    (hdH : (P.pop.getD st.pindex default).dH.sum = 1) :
    (∀ a', groupSum (popTickAge P r t lam a st rep).1 a' = groupSum st a')
    ∧ (popTickAge P r t lam a st rep).1.S.length = st.S.length
    ∧ (popTickAge P r t lam a st rep).1.R.length = st.R.length
    ∧ (popTickAge P r t lam a st rep).1.E.length = st.E.length
    ∧ (popTickAge P r t lam a st rep).1.Ip.length = st.Ip.length
    ∧ (popTickAge P r t lam a st rep).1.Ia.length = st.Ia.length
    ∧ (popTickAge P r t lam a st rep).1.Is.length = st.Is.length
    ∧ (popTickAge P r t lam a st rep).1.H.length = st.H.length
    ∧ (popTickAge P r t lam a st rep).1.rates = st.rates
    ∧ (popTickAge P r t lam a st rep).1.pindex = st.pindex := by
  have hg := builtinStep_groupSum P r lam a st hS hR hE hIp hIa hIs hH
    hdE hdIp hdIa hdIs hdH
  have hl := builtinStep_lengths P r lam a st
  have hf := builtinStep_fields P r lam a st
  exact ⟨fun a' => hg a', hl.1, hl.2.1, hl.2.2.1, hl.2.2.2.1, hl.2.2.2.2.1,
    hl.2.2.2.2.2.1, hl.2.2.2.2.2.2.1, hf.2.2.2.2.2.1, hf.2.2.2.2.2.2⟩

/-- `Population::Tick` conserves the core chain of every age group and
the state shape. -/
theorem popTick_pres (P : Params) (r : Rand) (t : ℚ) (i : ℕ) (st : PopState)
    (infec : List ℚ) (rep : Reporter) (hWF : WFpop P i st)
    (hi : i < P.pop.length) (hpmf : pmfOK P) (hlen : infec.length = P.nAges) :
    (∀ a', groupSum (popTick P r t st infec rep).1 a' = groupSum st a')
    ∧ WFpop P i (popTick P r t st infec rep).1 := by
  have hres := foldl_inv
    (fun (acc : PopState × Reporter) a =>
      popTickAge P r t
        (nth ((List.range infec.length).map (fun x => lambdaAt st.rates x infec)) a)
        a acc.1 acc.2)
    (List.range infec.length)
    (fun acc => (∀ a', groupSum acc.1 a' = groupSum st a') ∧ WFpop P i acc.1)
    ?_ (st, rep) ⟨fun _ => rfl, hWF⟩
  · exact ⟨hres.1, hres.2⟩
  · intro acc a ha hacc
    obtain ⟨hg, hw⟩ := hacc
    obtain ⟨wpi, wS, wR, wE, wIp, wIa, wIs, wH⟩ := hw
    have haN : a < P.nAges := hlen ▸ List.mem_range.mp ha
    have hppmem : P.pop.getD acc.1.pindex default ∈ P.pop := by
      rw [wpi]; exact getD_mem _ _ _ hi
    have hpp := hpmf _ hppmem
    have h := popTickAge_pres P r t
      (nth ((List.range infec.length).map (fun x => lambdaAt st.rates x infec)) a)
      a acc.1 acc.2 (wS ▸ haN) (wR ▸ haN) (wE ▸ haN) (wIp ▸ haN) (wIa ▸ haN)
      (wIs ▸ haN) (wH ▸ haN) hpp.1 hpp.2.1 hpp.2.2.1 hpp.2.2.2.1 hpp.2.2.2.2
    refine ⟨fun a' => (h.1 a').trans (hg a'), ?_⟩
    exact ⟨h.2.2.2.2.2.2.2.2.2.trans wpi, h.2.1.trans wS, h.2.2.1.trans wR,
      h.2.2.2.1.trans wE, h.2.2.2.2.1.trans wIp, h.2.2.2.2.2.1.trans wIa,
      h.2.2.2.2.2.2.1.trans wIs, h.2.2.2.2.2.2.2.1.trans wH⟩

/-- Elementwise description of the contagiousness pass. -/
theorem contagAll_elem (P : Params) (r : Rand) (t : ℚ) :
    ∀ (sts : List PopState) (sc : List PopState × List (List ℚ)),
    contagAll P r t sts = .ok sc →
    sc.1.length = sts.length ∧
    ∀ i < sts.length, ∃ cg,
      contagiousness P r t (sts.getD i default) = .ok (sc.1.getD i default, cg) := by
  intro sts
  induction sts with
  | nil =>
    intro sc h
    simp only [contagAll, Except.ok.injEq] at h
    subst h
    exact ⟨rfl, fun i hi => absurd hi (by simp)⟩
  | cons st rest ih =>
    intro sc h
    simp only [contagAll] at h
    cases h1 : contagiousness P r t st with
    | error e => rw [h1] at h; exact absurd h (by simp)
    | ok p =>
      rw [h1] at h
      cases h2 : contagAll P r t rest with
      | error e => rw [h2] at h; exact absurd h (by simp)
      | ok rs =>
        rw [h2] at h
        simp only [Except.ok.injEq] at h
        subst h
        obtain ⟨ihlen, ihel⟩ := ih rs h2
        refine ⟨by simpa using ihlen, ?_⟩
        intro i hi
        cases i with
        | zero => exact ⟨p.2, by simpa using h1⟩
        | succ n =>
          obtain ⟨cg, hcg⟩ := ihel n (by simpa using hi)
          exact ⟨cg, by simpa using hcg⟩

/-- Elementwise description of the population-update loop: every
resulting state is either the untouched input state (tick skipped) or
the tick of the input state. -/
theorem tickFold_elem (P : Params) (r : Rand) (t : ℚ) (infec : List (List ℚ)) :
    ∀ (sts : List PopState) (rep : Reporter) (keep : Bool) (i : ℕ),
    (tickFold P r t infec rep keep i sts).1.length = sts.length ∧
    ∀ j < sts.length,
      (tickFold P r t infec rep keep i sts).1.getD j default = sts.getD j default ∨
      ∃ rep0, (tickFold P r t infec rep keep i sts).1.getD j default =
        (popTick P r t (sts.getD j default) (infec.getD (i + j) []) rep0).1 := by
  intro sts
  induction sts with
  | nil =>
    intro rep keep i
    exact ⟨by cases keep <;> rfl, fun j hj => absurd hj (by simp)⟩
  | cons st rest ih =>
    intro rep keep i
    cases keep with
    | false =>
      rw [tickFold_skip]
      exact ⟨rfl, fun j _ => Or.inl rfl⟩
    | true =>
      simp only [tickFold]
      obtain ⟨ihlen, ihel⟩ := ih (popTick P r t st (infec.getD i []) rep).2.1
        (popTick P r t st (infec.getD i []) rep).2.2 (i + 1)
      constructor
      · simpa using ihlen
      · intro j hj
        cases j with
        | zero =>
          right
          exact ⟨rep, by simp⟩
        | succ n =>
          have h := ihel n (by simpa using hj)
          rcases h with h | ⟨rep0, h⟩
          · left; simpa using h
          · right
            refine ⟨rep0, ?_⟩
            have harith : i + 1 + n = i + (n + 1) := by omega
            simpa [harith] using h

end Covid

namespace Covid

theorem cAt_replicate (n a : ℕ) :
    cAt (List.replicate n (⟨[]⟩ : Compartment)) a = ⟨[]⟩ := by
  by_cases h : a < n <;>
    simp [cAt, List.getD, List.getElem?_replicate, h, default, Inhabited.default]

theorem nth_replicate (n a : ℕ) : nth (List.replicate n (0 : ℚ)) a = 0 := by
  by_cases h : a < n <;> simp [nth, List.getD, List.getElem?_replicate, h]

/-- C2: for every age group of every population the core chain
`S + E.Size + Ip.Size + Ia.Size + Is.Size + H.Size + R` holds exactly the
configured initial population size — at initialisation and after every
successful metapopulation tick (the built-in chain moves each outflow
entirely into the next built-in state; user-defined processes receive
copies and never divert individuals out of the core chain). -/
theorem C2_conservation (P : Params) (r : Rand) (hpmf : pmfOK P)
    (hsz : sizesOK P) :
    (Conserved P (initStates P) ∧ WFs P (initStates P))
    ∧ (∀ t sts rep out, WFs P sts → Conserved P sts →
        metaTick P r t sts rep = .ok out → Conserved P out.1 ∧ WFs P out.1) := by
  have hinitlen : (initStates P).length = P.pop.length := by simp [initStates]
  constructor
  · constructor
    · intro i hi a _
      rw [hinitlen] at hi
      have hgd : (initStates P).getD i default = initPop P i := by
        simp only [initStates]; exact getD_map_range _ _ _ _ hi
      rw [hgd]
      simp [groupSum, initPop, cAt_replicate, nth_replicate, Compartment.size]
    · refine ⟨hinitlen, ?_⟩
      intro i hi
      rw [hinitlen] at hi
      have hgd : (initStates P).getD i default = initPop P i := by
        simp only [initStates]; exact getD_map_range _ _ _ _ hi
      rw [hgd]
      have hszi := hsz _ (getD_mem _ i default hi)
      have hszi' : (P.pop[i]?.getD default).size.length = P.nAges := by
        simpa [List.getD_eq_getElem?_getD] using hszi
      exact ⟨rfl, hszi, by simp [initPop, hszi'], by simp [initPop, hszi'],
        by simp [initPop, hszi'], by simp [initPop, hszi'],
        by simp [initPop, hszi'], by simp [initPop, hszi']⟩
  · intro t sts rep out hWFs hCons hmt
    obtain ⟨hlen, hWFe⟩ := hWFs
    simp only [metaTick] at hmt
    cases hca : contagAll P r t sts with
    | error e => rw [hca] at hmt; exact absurd hmt (by simp)
    | ok sc =>
      rw [hca] at hmt
      simp only [Except.ok.injEq] at hmt
      obtain ⟨hlenc, helem⟩ := contagAll_elem P r t sts sc hca
      have hscWF : ∀ i < sc.1.length, WFpop P i (sc.1.getD i default) ∧
          (∀ a', groupSum (sc.1.getD i default) a' =
            groupSum (sts.getD i default) a') := by
        intro i hi
        have hi' : i < sts.length := hlenc ▸ hi
        obtain ⟨cg, hcg⟩ := helem i hi'
        have hp := contag_pres P r t i (sts.getD i default)
          (sc.1.getD i default, cg) hcg (hWFe i hi') (hlen ▸ hi') hpmf
        exact ⟨hp.2, hp.1⟩
      obtain ⟨htlen, htel⟩ := tickFold_elem P r t
        ((List.range sc.1.length).map
          (fun i => (List.range P.nAges).map (fun a => infecAt P sc.1 sc.2 i a)))
        sc.1 rep true 0
      subst hmt
      constructor
      · intro i hi a ha
        rw [htlen] at hi
        have hi2 : i < sts.length := hlenc ▸ hi
        have hel := htel i hi
        have hscW := hscWF i hi
        rcases hel with he | ⟨rep0, he⟩
        · rw [he, hscW.2 a]
          exact hCons i hi2 a ha
        · rw [he]
          have hinf : ((((List.range sc.1.length).map
              (fun i => (List.range P.nAges).map
                (fun a => infecAt P sc.1 sc.2 i a)))).getD (0 + i) []).length
              = P.nAges := by
            simp only [Nat.zero_add]
            rw [getD_map_range _ _ _ _ hi]
            simp
          have hp := popTick_pres P r t i (sc.1.getD i default) _ rep0
            hscW.1 (hlen ▸ hi2) hpmf hinf
          rw [hp.1 a, hscW.2 a]
          exact hCons i hi2 a ha
      · refine ⟨htlen.trans (hlenc.trans hlen), ?_⟩
        intro i hi
        rw [htlen] at hi
        have hi2 : i < sts.length := hlenc ▸ hi
        have hel := htel i hi
        have hscW := hscWF i hi
        rcases hel with he | ⟨rep0, he⟩
        · rw [he]; exact hscW.1
        · rw [he]
          have hinf : ((((List.range sc.1.length).map
              (fun i => (List.range P.nAges).map
                (fun a => infecAt P sc.1 sc.2 i a)))).getD (0 + i) []).length
              = P.nAges := by
            simp only [Nat.zero_add]
            rw [getD_map_range _ _ _ _ hi]
            simp
          exact (popTick_pres P r t i (sc.1.getD i default) _ rep0
            hscW.1 (hlen ▸ hi2) hpmf hinf).2

theorem C2_conservation_witness :
    pmfOK Pseed ∧ sizesOK Pseed ∧
      Conserved Pseed (okStates (metaTick Pseed rand0 0 (initStates Pseed) rep0)) := by
  have hpmf : pmfOK Pseed := by
    intro pp hpp
    simp only [Pseed, List.mem_singleton] at hpp
    subst hpp
    norm_num [ppSeed]
  have hsz : sizesOK Pseed := by
    intro pp hpp
    simp only [Pseed, List.mem_singleton] at hpp
    subst hpp
    simp [ppSeed, Params.nAges, Pseed]
  have hthm := C2_conservation Pseed rand0 hpmf hsz
  have hok : okIsOk (metaTick Pseed rand0 0 (initStates Pseed) rep0) = true := by
    norm_num [metaTick, contagAll, contagiousness, doSeeding, seedEvent, seedAdd,
      doSchedule, popTick, popTickAge, builtinStep, matureProcs, seedProcs,
      initStates, initPop, Pseed, ppSeed, ratesZ, nth, nth2, cAt, addC, updC,
      matC, listAdd, Compartment.add, Compartment.mature, Compartment.size,
      binom, multinomH, lambdaAt, okIsOk, firstIdxOne, tickFold, infecAt,
      Params.nAges, rep0, rand0, List.foldlM, List.range_succ]
  have hmeta := okEta _ hok
  refine ⟨hpmf, hsz, ?_⟩
  exact (hthm.2 0 (initStates Pseed) rep0
    (okStates (metaTick Pseed rand0 0 (initStates Pseed) rep0),
     okRep (metaTick Pseed rand0 0 (initStates Pseed) rep0),
     okBool (metaTick Pseed rand0 0 (initStates Pseed) rep0))
    hthm.1.2 hthm.1.1 hmeta).1

end Covid

namespace Covid

/-! ### Reporter write machinery -/

theorem setCell_data (rep : Reporter) (c row : ℕ) (v : ℚ) (c' r' : ℕ) :
    (rep.setCell c row v).data c' r' =
      if c' = c ∧ r' = row then v else rep.data c' r' := rfl

theorem accum_sub (rep : Reporter) (t : ℚ) (p a c0 : ℕ) (v : ℚ) (c r : ℕ) :
    (rep.accum t p a c0 v).data c r - rep.data c r =
      if c = c0 ∧ r = rowIdx rep.t0 rep.npop rep.nage t p a then v else 0 := by
  simp only [Reporter.accum, setCell_data]
  split <;> rename_i h
  · obtain ⟨h1, h2⟩ := h; subst h1; subst h2; ring
  · ring

theorem writePCols_meta (t : ℚ) (p a : ℕ) (pc : List (List Compartment)) :
    ∀ (pairs : List (ℕ × ℕ)) (rep : Reporter),
      (writePCols t p a pc pairs rep).t0 = rep.t0
      ∧ (writePCols t p a pc pairs rep).npop = rep.npop
      ∧ (writePCols t p a pc pairs rep).nage = rep.nage := by
  intro pairs
  induction pairs with
  | nil => intro rep; exact ⟨rfl, rfl, rfl⟩
  | cons ci rest ih => intro rep; exact ih _

theorem prevProcs_meta (t : ℚ) (p a : ℕ) (pc : List (List Compartment)) :
    ∀ (procs : List Process) (rep : Reporter),
      (prevProcs t p a pc procs rep).t0 = rep.t0
      ∧ (prevProcs t p a pc procs rep).npop = rep.npop
      ∧ (prevProcs t p a pc procs rep).nage = rep.nage := by
  intro procs
  induction procs with
  | nil => intro rep; exact ⟨rfl, rfl, rfl⟩
  | cons pr rest ih =>
    intro rep
    rw [prevProcs]
    refine ⟨?_, ?_, ?_⟩
    · rw [(ih _).1, (writePCols_meta _ _ _ _ _ _).1]
    · rw [(ih _).2.1, (writePCols_meta _ _ _ _ _ _).2.1]
    · rw [(ih _).2.2, (writePCols_meta _ _ _ _ _ _).2.2]

theorem reportPrev_meta (t : ℚ) (procs : List Process) (st : PopState) (a : ℕ)
    (rep : Reporter) :
    (reportPrev t procs st a rep).t0 = rep.t0
    ∧ (reportPrev t procs st a rep).npop = rep.npop
    ∧ (reportPrev t procs st a rep).nage = rep.nage := by
  simp only [reportPrev]
  exact ⟨(prevProcs_meta _ _ _ _ _ _).1, (prevProcs_meta _ _ _ _ _ _).2.1,
    (prevProcs_meta _ _ _ _ _ _).2.2⟩

theorem writePCols_data_ne (t : ℚ) (p a : ℕ) (pc : List (List Compartment)) :
    ∀ (pairs : List (ℕ × ℕ)) (rep : Reporter) (c r : ℕ),
      (∀ x ∈ pairs, c ≠ x.1) →
      (writePCols t p a pc pairs rep).data c r = rep.data c r := by
  intro pairs
  induction pairs with
  | nil => intro rep c r _; rfl
  | cons ci rest ih =>
    intro rep c r h
    rw [writePCols]
    rw [ih _ c r (fun x hx => h x (List.mem_cons_of_mem ci hx))]
    simp only [Reporter.write, setCell_data]
    rw [if_neg]
    intro hc
    exact h ci (List.mem_cons_self ci rest) hc.1

theorem prevProcs_data_ne (t : ℚ) (p a : ℕ) (pc : List (List Compartment)) :
    ∀ (procs : List Process) (rep : Reporter) (c r : ℕ),
      (∀ pr ∈ procs, c ∉ pr.p_cols) →
      (prevProcs t p a pc procs rep).data c r = rep.data c r := by
  intro procs
  induction procs with
  | nil => intro rep c r _; rfl
  | cons pr rest ih =>
    intro rep c r h
    rw [prevProcs]
    rw [ih _ c r (fun q hq => h q (List.mem_cons_of_mem pr hq))]
    refine writePCols_data_ne t p a pc _ rep c r ?_
    intro x hx hcx
    exact h pr (List.mem_cons_self pr rest) (hcx ▸ (List.of_mem_zip hx).1)

theorem reportPrev_data_ne (t : ℚ) (procs : List Process) (st : PopState)
    (a : ℕ) (rep : Reporter) (c r : ℕ)
    (h0 : c ∉ ([0, 1, 2, 3, 4, 5] : List ℕ))
    (hp : ∀ pr ∈ procs, c ∉ pr.p_cols) :
    (reportPrev t procs st a rep).data c r = rep.data c r := by
  simp only [List.mem_cons, List.not_mem_nil, or_false, not_or] at h0
  obtain ⟨n0, n1, n2, n3, n4, n5⟩ := h0
  simp only [reportPrev]
  rw [prevProcs_data_ne t _ _ _ procs _ c r hp]
  simp only [Reporter.write, setCell_data]
  rw [if_neg (fun hx => n5 hx.1), if_neg (fun hx => n4 hx.1),
    if_neg (fun hx => n3 hx.1), if_neg (fun hx => n2 hx.1),
    if_neg (fun hx => n1 hx.1), if_neg (fun hx => n0 hx.1)]

end Covid

namespace Covid

theorem addICols_meta (t : ℚ) (p a : ℕ) (pci : List ℚ) :
    ∀ (pairs : List (ℕ × ℕ)) (rep : Reporter),
      (addICols t p a pci pairs rep).t0 = rep.t0
      ∧ (addICols t p a pci pairs rep).npop = rep.npop
      ∧ (addICols t p a pci pairs rep).nage = rep.nage := by
  intro pairs
  induction pairs with
  | nil => intro rep; exact ⟨rfl, rfl, rfl⟩
  | cons ci rest ih => intro rep; exact ih _

theorem addOCols_meta (t : ℚ) (p a : ℕ) (pco : List ℚ) :
    ∀ (pairs : List (ℕ × ℕ)) (rep : Reporter),
      (addOCols t p a pco pairs rep).t0 = rep.t0
      ∧ (addOCols t p a pco pairs rep).npop = rep.npop
      ∧ (addOCols t p a pco pairs rep).nage = rep.nage := by
  intro pairs
  induction pairs with
  | nil => intro rep; exact ⟨rfl, rfl, rfl⟩
  | cons ci rest ih => intro rep; exact ih _

theorem incProcs_meta (t : ℚ) (p a : ℕ) (pci pco : List ℚ) :
    ∀ (procs : List Process) (rep : Reporter),
      (incProcs t p a pci pco procs rep).t0 = rep.t0
      ∧ (incProcs t p a pci pco procs rep).npop = rep.npop
      ∧ (incProcs t p a pci pco procs rep).nage = rep.nage := by
  intro procs
  induction procs with
  | nil => intro rep; exact ⟨rfl, rfl, rfl⟩
  | cons pr rest ih =>
    intro rep
    rw [incProcs]
    refine ⟨?_, ?_, ?_⟩
    · rw [(ih _).1, (addOCols_meta _ _ _ _ _ _).1, (addICols_meta _ _ _ _ _ _).1]
    · rw [(ih _).2.1, (addOCols_meta _ _ _ _ _ _).2.1,
        (addICols_meta _ _ _ _ _ _).2.1]
    · rw [(ih _).2.2, (addOCols_meta _ _ _ _ _ _).2.2,
        (addICols_meta _ _ _ _ _ _).2.2]

/-- Incidence accumulation writes only into the row of the current
reporting interval. -/
theorem addICols_data_row (t : ℚ) (p a : ℕ) (pci : List ℚ) :
    ∀ (pairs : List (ℕ × ℕ)) (rep : Reporter) (c r : ℕ),
      r ≠ rowIdx rep.t0 rep.npop rep.nage t p a →
      (addICols t p a pci pairs rep).data c r = rep.data c r := by
  intro pairs
  induction pairs with
  | nil => intro rep c r _; rfl
  | cons ci rest ih =>
    intro rep c r h
    rw [addICols]
    rw [ih (rep.accum t p a ci.1 (nth pci ci.2)) c r h]
    simp only [Reporter.accum, setCell_data]
    rw [if_neg (fun hx => h hx.2)]

theorem addOCols_data_row (t : ℚ) (p a : ℕ) (pco : List ℚ) :
    ∀ (pairs : List (ℕ × ℕ)) (rep : Reporter) (c r : ℕ),
      r ≠ rowIdx rep.t0 rep.npop rep.nage t p a →
      (addOCols t p a pco pairs rep).data c r = rep.data c r := by
  intro pairs
  induction pairs with
  | nil => intro rep c r _; rfl
  | cons ci rest ih =>
    intro rep c r h
    rw [addOCols]
    rw [ih (rep.accum t p a ci.1 (nth pco ci.2)) c r h]
    simp only [Reporter.accum, setCell_data]
    rw [if_neg (fun hx => h hx.2)]

theorem incProcs_data_row (t : ℚ) (p a : ℕ) (pci pco : List ℚ) :
    ∀ (procs : List Process) (rep : Reporter) (c r : ℕ),
      r ≠ rowIdx rep.t0 rep.npop rep.nage t p a →
      (incProcs t p a pci pco procs rep).data c r = rep.data c r := by
  intro procs
  induction procs with
  | nil => intro rep c r _; rfl
  | cons pr rest ih =>
    intro rep c r h
    rw [incProcs]
    have hmI := addICols_meta t p a pci (pr.i_cols.zip pr.i_ids) rep
    have hmO := addOCols_meta t p a pco (pr.o_cols.zip pr.o_ids)
      (addICols t p a pci (pr.i_cols.zip pr.i_ids) rep)
    rw [ih _ c r (by rw [hmO.1, hmO.2.1, hmO.2.2, hmI.1, hmI.2.1, hmI.2.2]; exact h)]
    rw [addOCols_data_row t p a pco _ _ c r
      (by rw [hmI.1, hmI.2.1, hmI.2.2]; exact h)]
    exact addICols_data_row t p a pci _ _ c r h

theorem reportInc_data_row (t : ℚ) (procs : List Process) (st : PopState)
    (a : ℕ) (fl : Flows) (rep : Reporter) (c r : ℕ)
    (h : r ≠ rowIdx rep.t0 rep.npop rep.nage t st.pindex a) :
    (reportInc t procs st a fl rep).data c r = rep.data c r := by
  simp only [reportInc]
  rw [incProcs_data_row t _ _ _ _ procs _ c r (by simpa using h)]
  simp only [Reporter.accum, setCell_data]
  rw [if_neg (fun hx => h hx.2), if_neg (fun hx => h hx.2),
    if_neg (fun hx => h hx.2)]

/-- Incidence accumulation never overwrites: the change to any cell is
independent of the reporter's prior contents. -/
theorem addICols_data_sub (t : ℚ) (p a : ℕ) (pci : List ℚ) :
    ∀ (pairs : List (ℕ × ℕ)) (rep rep' : Reporter),
      rep'.t0 = rep.t0 → rep'.npop = rep.npop → rep'.nage = rep.nage →
      ∀ c r, (addICols t p a pci pairs rep).data c r - rep.data c r =
        (addICols t p a pci pairs rep').data c r - rep'.data c r := by
  intro pairs
  induction pairs with
  | nil => intro rep rep' _ _ _ c r; simp [addICols]
  | cons ci rest ih =>
    intro rep rep' h0 h1 h2 c r
    rw [addICols, addICols]
    have e1 : (addICols t p a pci rest (rep.accum t p a ci.1 (nth pci ci.2))).data c r
        - rep.data c r =
        ((addICols t p a pci rest (rep.accum t p a ci.1 (nth pci ci.2))).data c r
          - (rep.accum t p a ci.1 (nth pci ci.2)).data c r)
        + ((rep.accum t p a ci.1 (nth pci ci.2)).data c r - rep.data c r) := by ring
    have e2 : (addICols t p a pci rest (rep'.accum t p a ci.1 (nth pci ci.2))).data c r
        - rep'.data c r =
        ((addICols t p a pci rest (rep'.accum t p a ci.1 (nth pci ci.2))).data c r
          - (rep'.accum t p a ci.1 (nth pci ci.2)).data c r)
        + ((rep'.accum t p a ci.1 (nth pci ci.2)).data c r - rep'.data c r) := by ring
    rw [e1, e2]
    rw [ih (rep.accum t p a ci.1 (nth pci ci.2)) (rep'.accum t p a ci.1 (nth pci ci.2))
      h0 h1 h2 c r]
    rw [accum_sub, accum_sub, h0, h1, h2]

theorem addOCols_data_sub (t : ℚ) (p a : ℕ) (pco : List ℚ) :
    ∀ (pairs : List (ℕ × ℕ)) (rep rep' : Reporter),
      rep'.t0 = rep.t0 → rep'.npop = rep.npop → rep'.nage = rep.nage →
      ∀ c r, (addOCols t p a pco pairs rep).data c r - rep.data c r =
        (addOCols t p a pco pairs rep').data c r - rep'.data c r := by
  intro pairs
  induction pairs with
  | nil => intro rep rep' _ _ _ c r; simp [addOCols]
  | cons ci rest ih =>
    intro rep rep' h0 h1 h2 c r
    rw [addOCols, addOCols]
    have e1 : (addOCols t p a pco rest (rep.accum t p a ci.1 (nth pco ci.2))).data c r
        - rep.data c r =
        ((addOCols t p a pco rest (rep.accum t p a ci.1 (nth pco ci.2))).data c r
          - (rep.accum t p a ci.1 (nth pco ci.2)).data c r)
        + ((rep.accum t p a ci.1 (nth pco ci.2)).data c r - rep.data c r) := by ring
    have e2 : (addOCols t p a pco rest (rep'.accum t p a ci.1 (nth pco ci.2))).data c r
        - rep'.data c r =
        ((addOCols t p a pco rest (rep'.accum t p a ci.1 (nth pco ci.2))).data c r
          - (rep'.accum t p a ci.1 (nth pco ci.2)).data c r)
        + ((rep'.accum t p a ci.1 (nth pco ci.2)).data c r - rep'.data c r) := by ring
    rw [e1, e2]
    rw [ih (rep.accum t p a ci.1 (nth pco ci.2)) (rep'.accum t p a ci.1 (nth pco ci.2))
      h0 h1 h2 c r]
    rw [accum_sub, accum_sub, h0, h1, h2]

theorem incProcs_data_sub (t : ℚ) (p a : ℕ) (pci pco : List ℚ) :
    ∀ (procs : List Process) (rep rep' : Reporter),
      rep'.t0 = rep.t0 → rep'.npop = rep.npop → rep'.nage = rep.nage →
      ∀ c r, (incProcs t p a pci pco procs rep).data c r - rep.data c r =
        (incProcs t p a pci pco procs rep').data c r - rep'.data c r := by
  intro procs
  induction procs with
  | nil => intro rep rep' _ _ _ c r; simp [incProcs]
  | cons pr rest ih =>
    intro rep rep' h0 h1 h2 c r
    rw [incProcs, incProcs]
    set repA := addOCols t p a pco (pr.o_cols.zip pr.o_ids)
      (addICols t p a pci (pr.i_cols.zip pr.i_ids) rep) with hA
    set repB := addOCols t p a pco (pr.o_cols.zip pr.o_ids)
      (addICols t p a pci (pr.i_cols.zip pr.i_ids) rep') with hB
    have hmA := addOCols_meta t p a pco (pr.o_cols.zip pr.o_ids)
      (addICols t p a pci (pr.i_cols.zip pr.i_ids) rep)
    have hmB := addOCols_meta t p a pco (pr.o_cols.zip pr.o_ids)
      (addICols t p a pci (pr.i_cols.zip pr.i_ids) rep')
    have hmIA := addICols_meta t p a pci (pr.i_cols.zip pr.i_ids) rep
    have hmIB := addICols_meta t p a pci (pr.i_cols.zip pr.i_ids) rep'
    have hBA0 : repB.t0 = repA.t0 := by
      rw [hA, hB, hmA.1, hmB.1, hmIA.1, hmIB.1, h0]
    have hBA1 : repB.npop = repA.npop := by
      rw [hA, hB, hmA.2.1, hmB.2.1, hmIA.2.1, hmIB.2.1, h1]
    have hBA2 : repB.nage = repA.nage := by
      rw [hA, hB, hmA.2.2, hmB.2.2, hmIA.2.2, hmIB.2.2, h2]
    have e1 : (incProcs t p a pci pco rest repA).data c r - rep.data c r =
        ((incProcs t p a pci pco rest repA).data c r - repA.data c r)
        + (repA.data c r - rep.data c r) := by ring
    have e2 : (incProcs t p a pci pco rest repB).data c r - rep'.data c r =
        ((incProcs t p a pci pco rest repB).data c r - repB.data c r)
        + (repB.data c r - rep'.data c r) := by ring
    rw [e1, e2, ih repA repB hBA0 hBA1 hBA2 c r]
    have eA : repA.data c r - rep.data c r =
        (repA.data c r - (addICols t p a pci (pr.i_cols.zip pr.i_ids) rep).data c r)
        + ((addICols t p a pci (pr.i_cols.zip pr.i_ids) rep).data c r - rep.data c r) := by
      ring
    have eB : repB.data c r - rep'.data c r =
        (repB.data c r - (addICols t p a pci (pr.i_cols.zip pr.i_ids) rep').data c r)
        + ((addICols t p a pci (pr.i_cols.zip pr.i_ids) rep').data c r - rep'.data c r) := by
      ring
    rw [eA, eB]
    rw [hA, hB]
    rw [addOCols_data_sub t p a pco (pr.o_cols.zip pr.o_ids)
      (addICols t p a pci (pr.i_cols.zip pr.i_ids) rep)
      (addICols t p a pci (pr.i_cols.zip pr.i_ids) rep')
      (by rw [hmIA.1, hmIB.1, h0]) (by rw [hmIA.2.1, hmIB.2.1, h1])
      (by rw [hmIA.2.2, hmIB.2.2, h2]) c r]
    rw [addICols_data_sub t p a pci (pr.i_cols.zip pr.i_ids) rep rep' h0 h1 h2 c r]

theorem accum_data (rep : Reporter) (t : ℚ) (p a c0 : ℕ) (v : ℚ) (c r : ℕ) :
    (rep.accum t p a c0 v).data c r = rep.data c r +
      (if c = c0 ∧ r = rowIdx rep.t0 rep.npop rep.nage t p a then v else 0) := by
  simp only [Reporter.accum, setCell_data]
  split <;> rename_i h
  · obtain ⟨h1, h2⟩ := h; subst h1; subst h2; simp
  · simp

theorem accum_t0 (rep : Reporter) (t : ℚ) (p a c : ℕ) (v : ℚ) :
    (rep.accum t p a c v).t0 = rep.t0 := rfl

theorem accum_npop (rep : Reporter) (t : ℚ) (p a c : ℕ) (v : ℚ) :
    (rep.accum t p a c v).npop = rep.npop := rfl

theorem accum_nage (rep : Reporter) (t : ℚ) (p a c : ℕ) (v : ℚ) :
    (rep.accum t p a c v).nage = rep.nage := rfl

theorem reportInc_data_sub (t : ℚ) (procs : List Process) (st : PopState)
    (a : ℕ) (fl : Flows) (rep rep' : Reporter)
    (h0 : rep'.t0 = rep.t0) (h1 : rep'.npop = rep.npop)
    (h2 : rep'.nage = rep.nage) (c r : ℕ) :
    (reportInc t procs st a fl rep).data c r - rep.data c r =
      (reportInc t procs st a fl rep').data c r - rep'.data c r := by
  simp only [reportInc]
  set repA := ((rep.accum t st.pindex a 6 fl.nIp_Is).accum t st.pindex a 7
    fl.n_reported).accum t st.pindex a 8 fl.nE_Ia with hA
  set repB := ((rep'.accum t st.pindex a 6 fl.nIp_Is).accum t st.pindex a 7
    fl.n_reported).accum t st.pindex a 8 fl.nE_Ia with hB
  have hBA0 : repB.t0 = repA.t0 := h0
  have hBA1 : repB.npop = repA.npop := h1
  have hBA2 : repB.nage = repA.nage := h2
  have tripleA : repA.data c r = rep.data c r
      + (if c = 6 ∧ r = rowIdx rep.t0 rep.npop rep.nage t st.pindex a
          then fl.nIp_Is else 0)
      + (if c = 7 ∧ r = rowIdx rep.t0 rep.npop rep.nage t st.pindex a
          then fl.n_reported else 0)
      + (if c = 8 ∧ r = rowIdx rep.t0 rep.npop rep.nage t st.pindex a
          then fl.nE_Ia else 0) := by
    rw [hA, accum_data, accum_data, accum_data]
    simp only [accum_t0, accum_npop, accum_nage]
    try ring
  have tripleB : repB.data c r = rep'.data c r
      + (if c = 6 ∧ r = rowIdx rep.t0 rep.npop rep.nage t st.pindex a
          then fl.nIp_Is else 0)
      + (if c = 7 ∧ r = rowIdx rep.t0 rep.npop rep.nage t st.pindex a
          then fl.n_reported else 0)
      + (if c = 8 ∧ r = rowIdx rep.t0 rep.npop rep.nage t st.pindex a
          then fl.nE_Ia else 0) := by
    rw [hB, accum_data, accum_data, accum_data]
    simp only [accum_t0, accum_npop, accum_nage, h0, h1, h2]
    try ring
  have e1 : (incProcs t st.pindex a st.pci st.pco procs repA).data c r
      - rep.data c r =
      ((incProcs t st.pindex a st.pci st.pco procs repA).data c r - repA.data c r)
      + (repA.data c r - rep.data c r) := by ring
  have e2 : (incProcs t st.pindex a st.pci st.pco procs repB).data c r
      - rep'.data c r =
      ((incProcs t st.pindex a st.pci st.pco procs repB).data c r - repB.data c r)
      + (repB.data c r - rep'.data c r) := by ring
  rw [e1, e2, incProcs_data_sub t st.pindex a st.pci st.pco procs repA repB
    hBA0 hBA1 hBA2 c r, tripleA, tripleB]
  ring

end Covid

namespace Covid

theorem addICols_data_cne (t : ℚ) (p a : ℕ) (pci : List ℚ) :
    ∀ (pairs : List (ℕ × ℕ)) (rep : Reporter) (c r : ℕ),
      (∀ x ∈ pairs, c ≠ x.1) →
      (addICols t p a pci pairs rep).data c r = rep.data c r := by
  intro pairs
  induction pairs with
  | nil => intro rep c r _; rfl
  | cons ci rest ih =>
    intro rep c r h
    rw [addICols]
    rw [ih _ c r (fun x hx => h x (List.mem_cons_of_mem ci hx))]
    simp only [Reporter.accum, setCell_data]
    rw [if_neg (fun hx => h ci (List.mem_cons_self ci rest) hx.1)]

theorem addOCols_data_cne (t : ℚ) (p a : ℕ) (pco : List ℚ) :
    ∀ (pairs : List (ℕ × ℕ)) (rep : Reporter) (c r : ℕ),
      (∀ x ∈ pairs, c ≠ x.1) →
      (addOCols t p a pco pairs rep).data c r = rep.data c r := by
  intro pairs
  induction pairs with
  | nil => intro rep c r _; rfl
  | cons ci rest ih =>
    intro rep c r h
    rw [addOCols]
    rw [ih _ c r (fun x hx => h x (List.mem_cons_of_mem ci hx))]
    simp only [Reporter.accum, setCell_data]
    rw [if_neg (fun hx => h ci (List.mem_cons_self ci rest) hx.1)]

theorem incProcs_data_cne (t : ℚ) (p a : ℕ) (pci pco : List ℚ) :
    ∀ (procs : List Process) (rep : Reporter) (c r : ℕ),
      (∀ pr ∈ procs, c ∉ pr.i_cols ∧ c ∉ pr.o_cols) →
      (incProcs t p a pci pco procs rep).data c r = rep.data c r := by
  intro procs
  induction procs with
  | nil => intro rep c r _; rfl
  | cons pr rest ih =>
    intro rep c r h
    rw [incProcs]
    rw [ih _ c r (fun q hq => h q (List.mem_cons_of_mem pr hq))]
    rw [addOCols_data_cne t p a pco _ _ c r
      (fun x hx hcx =>
        (h pr (List.mem_cons_self pr rest)).2 (hcx ▸ (List.of_mem_zip hx).1))]
    exact addICols_data_cne t p a pci _ _ c r
      (fun x hx hcx =>
        (h pr (List.mem_cons_self pr rest)).1 (hcx ▸ (List.of_mem_zip hx).1))

theorem reportInc_data_cne (t : ℚ) (procs : List Process) (st : PopState)
    (a : ℕ) (fl : Flows) (rep : Reporter) (c r : ℕ)
    (h6 : c ∉ ([6, 7, 8] : List ℕ))
    (hio : ∀ pr ∈ procs, c ∉ pr.i_cols ∧ c ∉ pr.o_cols) :
    (reportInc t procs st a fl rep).data c r = rep.data c r := by
  simp only [List.mem_cons, List.not_mem_nil, or_false, not_or] at h6
  obtain ⟨n6, n7, n8⟩ := h6
  simp only [reportInc]
  rw [incProcs_data_cne t _ _ _ _ procs _ c r hio]
  simp only [Reporter.accum, setCell_data]
  rw [if_neg (fun hx => n8 hx.1), if_neg (fun hx => n7 hx.1),
    if_neg (fun hx => n6 hx.1)]

theorem mem_prevFold (c : ℕ) :
    ∀ procs : List Process,
      (c ∈ procs.foldr (fun pr acc => pr.p_cols ++ acc) []) ↔
        ∃ pr ∈ procs, c ∈ pr.p_cols := by
  intro procs
  induction procs with
  | nil => simp
  | cons pr rest ih => simp [List.mem_append, ih]

theorem mem_incFold (c : ℕ) :
    ∀ procs : List Process,
      (c ∈ procs.foldr (fun pr acc => pr.i_cols ++ pr.o_cols ++ acc) []) ↔
        ∃ pr ∈ procs, c ∈ pr.i_cols ∨ c ∈ pr.o_cols := by
  intro procs
  induction procs with
  | nil => simp
  | cons pr rest ih =>
    simp only [List.foldr_cons, List.mem_append, ih, List.mem_cons,
      exists_eq_or_imp, or_assoc]

theorem mem_prevChans (procs : List Process) (c : ℕ) :
    c ∈ prevChans procs ↔
      (c ∈ ([0, 1, 2, 3, 4, 5] : List ℕ) ∨ ∃ pr ∈ procs, c ∈ pr.p_cols) := by
  unfold prevChans
  rw [List.mem_append, mem_prevFold]

theorem mem_incChans (procs : List Process) (c : ℕ) :
    c ∈ incChans procs ↔
      (c ∈ ([6, 7, 8] : List ℕ) ∨ ∃ pr ∈ procs, c ∈ pr.i_cols ∨ c ∈ pr.o_cols) := by
  unfold incChans
  rw [List.mem_append, mem_incFold]

end Covid

namespace Covid

theorem popTickAge_rep (P : Params) (r : Rand) (t lam : ℚ) (a : ℕ)
    (st : PopState) (rep : Reporter) :
    (popTickAge P r t lam a st rep).2 =
      reportInc t P.processes (popTickAge P r t lam a st rep).1 a
        (builtinStep P r lam a st).2
        (if isIntTime t then reportPrev t P.processes st a rep else rep) := rfl

theorem popTickAge_pindex (P : Params) (r : Rand) (t lam : ℚ) (a : ℕ)
    (st : PopState) (rep : Reporter) :
    (popTickAge P r t lam a st rep).1.pindex = st.pindex := rfl

theorem popTickAge_state_indep (P : Params) (r : Rand) (t lam : ℚ) (a : ℕ)
    (st : PopState) (rep rep' : Reporter) :
    (popTickAge P r t lam a st rep).1 = (popTickAge P r t lam a st rep').1 := rfl

/-- C9: prevalence channels (0-5 and the process prevalence columns) are
written only when `t` is an integer tick; incidence/outcidence channels
(6-8 and the process incidence/outcidence columns) are only ever
accumulated — they change only in the row of the current reporting
interval, and the change is additive in the reporter's prior contents, so
sub-integer ticks within one interval add into the same row and no
interval's row is carried into another row. -/
theorem C9_reporting_alignment (P : Params) (r : Rand) (t lam : ℚ) (a : ℕ)
    (st : PopState) (rep : Reporter)
    (hdisj : ∀ c ∈ prevChans P.processes, c ∉ incChans P.processes) :
    (isIntTime t = false → ∀ c ∈ prevChans P.processes, ∀ row,
      (popTickAge P r t lam a st rep).2.data c row = rep.data c row)
    ∧ (∀ c ∈ incChans P.processes, ∀ row,
        row ≠ rowIdx rep.t0 rep.npop rep.nage t st.pindex a →
        (popTickAge P r t lam a st rep).2.data c row = rep.data c row)
    ∧ (∀ c ∈ incChans P.processes,
        (popTickAge P r t lam a st rep).2.data c
            (rowIdx rep.t0 rep.npop rep.nage t st.pindex a) =
          rep.data c (rowIdx rep.t0 rep.npop rep.nage t st.pindex a) +
            (popTickAge P r t lam a st (zeroR rep)).2.data c
              (rowIdx rep.t0 rep.npop rep.nage t st.pindex a)) := by
  have hdecInc : ∀ c, c ∉ incChans P.processes →
      (c ∉ ([6, 7, 8] : List ℕ) ∧
        ∀ pr ∈ P.processes, c ∉ pr.i_cols ∧ c ∉ pr.o_cols) := by
    intro c hc
    rw [mem_incChans] at hc
    push_neg at hc
    exact hc
  have hdecPrev : ∀ c, c ∉ prevChans P.processes →
      (c ∉ ([0, 1, 2, 3, 4, 5] : List ℕ) ∧ ∀ pr ∈ P.processes, c ∉ pr.p_cols) := by
    intro c hc
    rw [mem_prevChans] at hc
    push_neg at hc
    exact hc
  refine ⟨?_, ?_, ?_⟩
  · intro hint c hc row
    obtain ⟨h6, hio⟩ := hdecInc c (hdisj c hc)
    rw [popTickAge_rep, hint]
    simp only [Bool.false_eq_true, if_false]
    exact reportInc_data_cne t P.processes _ a _ rep c row h6 hio
  · intro c hc row hrow
    have hprev : c ∉ prevChans P.processes := fun hp => hdisj c hp hc
    obtain ⟨h05, hpc⟩ := hdecPrev c hprev
    rw [popTickAge_rep]
    by_cases hI : isIntTime t
    · rw [if_pos hI]
      have hmeta := reportPrev_meta t P.processes st a rep
      rw [reportInc_data_row t P.processes _ a _ _ c row
        (by rw [hmeta.1, hmeta.2.1, hmeta.2.2, popTickAge_pindex]; exact hrow)]
      exact reportPrev_data_ne t P.processes st a rep c row h05 hpc
    · rw [if_neg hI]
      exact reportInc_data_row t P.processes _ a _ rep c row
        (by rw [popTickAge_pindex]; exact hrow)
  · intro c hc
    have hprev : c ∉ prevChans P.processes := fun hp => hdisj c hp hc
    obtain ⟨h05, hpc⟩ := hdecPrev c hprev
    rw [popTickAge_rep, popTickAge_rep,
      popTickAge_state_indep P r t lam a st (zeroR rep) rep]
    have hm1 : (if isIntTime t then reportPrev t P.processes st a rep else rep).t0
        = rep.t0 ∧
        (if isIntTime t then reportPrev t P.processes st a rep else rep).npop
        = rep.npop ∧
        (if isIntTime t then reportPrev t P.processes st a rep else rep).nage
        = rep.nage := by
      by_cases hI : isIntTime t
      · rw [if_pos hI]; exact reportPrev_meta t P.processes st a rep
      · rw [if_neg hI]; exact ⟨rfl, rfl, rfl⟩
    have hm1z : (if isIntTime t then reportPrev t P.processes st a (zeroR rep)
          else zeroR rep).t0 = rep.t0 ∧
        (if isIntTime t then reportPrev t P.processes st a (zeroR rep)
          else zeroR rep).npop = rep.npop ∧
        (if isIntTime t then reportPrev t P.processes st a (zeroR rep)
          else zeroR rep).nage = rep.nage := by
      by_cases hI : isIntTime t
      · rw [if_pos hI]; exact reportPrev_meta t P.processes st a (zeroR rep)
      · rw [if_neg hI]; exact ⟨rfl, rfl, rfl⟩
    have hsub := reportInc_data_sub t P.processes
      (popTickAge P r t lam a st rep).1 a (builtinStep P r lam a st).2
      (if isIntTime t then reportPrev t P.processes st a rep else rep)
      (if isIntTime t then reportPrev t P.processes st a (zeroR rep) else zeroR rep)
      (hm1z.1.trans hm1.1.symm) (hm1z.2.1.trans hm1.2.1.symm)
      (hm1z.2.2.trans hm1.2.2.symm) c
      (rowIdx rep.t0 rep.npop rep.nage t st.pindex a)
    have h1 : (if isIntTime t then reportPrev t P.processes st a rep else rep).data c
        (rowIdx rep.t0 rep.npop rep.nage t st.pindex a) =
        rep.data c (rowIdx rep.t0 rep.npop rep.nage t st.pindex a) := by
      by_cases hI : isIntTime t
      · rw [if_pos hI]; exact reportPrev_data_ne t P.processes st a rep c _ h05 hpc
      · rw [if_neg hI]
    have h1z : (if isIntTime t then reportPrev t P.processes st a (zeroR rep)
          else zeroR rep).data c
        (rowIdx rep.t0 rep.npop rep.nage t st.pindex a) = 0 := by
      by_cases hI : isIntTime t
      · rw [if_pos hI]
        rw [reportPrev_data_ne t P.processes st a (zeroR rep) c _ h05 hpc]
        rfl
      · rw [if_neg hI]; rfl
    rw [h1, h1z] at hsub
    linarith [hsub]

theorem C9_reporting_alignment_witness :
    ((∀ c ∈ prevChans Pproc.processes, c ∉ incChans Pproc.processes)
      ∧ isIntTime half = false
      ∧ (∀ c ∈ prevChans Pproc.processes, ∀ row,
          (popTickAge Pproc rand0 half 0 0 (initPop Pproc 0) rep0).2.data c row
            = rep0.data c row))
    ∧ (10 ∈ incChans Pproc.processes
      ∧ (popTickAge Pproc rand0 half 0 0 (initPop Pproc 0) rep0).2.data 10
          (rowIdx rep0.t0 rep0.npop rep0.nage half (initPop Pproc 0).pindex 0 + 1)
        = rep0.data 10
          (rowIdx rep0.t0 rep0.npop rep0.nage half (initPop Pproc 0).pindex 0 + 1))
    ∧ ((popTickAge Pproc rand0 half 0 0 (initPop Pproc 0) rep0).2.data 10
          (rowIdx rep0.t0 rep0.npop rep0.nage half (initPop Pproc 0).pindex 0)
        = rep0.data 10
            (rowIdx rep0.t0 rep0.npop rep0.nage half (initPop Pproc 0).pindex 0)
          + (popTickAge Pproc rand0 half 0 0 (initPop Pproc 0) (zeroR rep0)).2.data 10
            (rowIdx rep0.t0 rep0.npop rep0.nage half (initPop Pproc 0).pindex 0)) := by
  have hdisj : ∀ c ∈ prevChans Pproc.processes, c ∉ incChans Pproc.processes := by
    decide
  have hint : isIntTime half = false := by decide
  have h10 : (10 : ℕ) ∈ incChans Pproc.processes := by decide
  have hthm := C9_reporting_alignment Pproc rand0 half 0 0 (initPop Pproc 0)
    rep0 hdisj
  exact ⟨⟨hdisj, hint, hthm.1 hint⟩,
    ⟨h10, hthm.2.1 10 h10 _ (Nat.succ_ne_self _)⟩,
    hthm.2.2 10 h10⟩

end Covid

namespace Covid

theorem setPC_length (pc : List (List Compartment)) (id a : ℕ) (c : Compartment) :
    (setPC pc id a c).length = pc.length := by
  simp [setPC]

theorem setPC_row_length (pc : List (List Compartment)) (id a : ℕ)
    (c : Compartment) (hid : id < pc.length) (id' : ℕ) :
    ((setPC pc id a c).getD id' []).length = (pc.getD id' []).length := by
  by_cases h : id = id'
  · subst h
    rw [setPC, getD_set_self _ _ _ _ hid]
    simp
  · rw [setPC, getD_set_ne _ _ _ _ _ h]

theorem getPC_setPC_ne (pc : List (List Compartment)) (id a : ℕ)
    (c : Compartment) (id' a' : ℕ) (h : id ≠ id') :
    getPC (setPC pc id a c) id' a' = getPC pc id' a' := by
  show cAt ((pc.set id ((pc.getD id []).set a c)).getD id' []) a'
    = cAt (pc.getD id' []) a'
  rw [getD_set_ne _ _ _ _ _ h]

theorem getPC_setPC_self (pc : List (List Compartment)) (id a : ℕ)
    (c : Compartment) (hid : id < pc.length) (ha : a < (pc.getD id []).length) :
    getPC (setPC pc id a c) id a = c := by
  rw [getPC, setPC, getD_set_self _ _ _ _ hid]
  exact cAt_set_self _ _ _ ha

theorem mem_allIds (x : ℕ) :
    ∀ procs : List Process, x ∈ allIds procs ↔ ∃ pr ∈ procs, x ∈ pr.ids := by
  intro procs
  induction procs with
  | nil => simp [allIds]
  | cons pr rest ih =>
    simp only [allIds, List.foldr_cons, List.mem_append, List.mem_cons,
      exists_eq_or_imp]
    rw [show (rest.foldr (fun pr acc => pr.ids ++ acc) []) = allIds rest from rfl,
      ih]

theorem map_fst_zip_sublist :
    ∀ (l1 l2 : List ℕ), (((l1.zip l2).map Prod.fst).Sublist l1) := by
  intro l1
  induction l1 with
  | nil => intro l2; simp
  | cons x rest ih =>
    intro l2
    cases l2 with
    | nil => simp
    | cons y l2 =>
      simp only [List.zip_cons_cons, List.map_cons]
      exact (ih l2).cons₂ x

/-- The maturation loop over a duplicate-free id list: each listed
compartment matures exactly once, writing its per-age maturation into
`pco`; everything else is untouched. -/
theorem matureIds_spec (a : ℕ) :
    ∀ (ids : List ℕ) (pc : List (List Compartment)) (pco : List ℚ),
    ids.Nodup →
    (∀ id ∈ ids, id < pc.length ∧ id < pco.length ∧ a < (pc.getD id []).length) →
    ((matureIds a ids pc pco).1.length = pc.length
    ∧ (matureIds a ids pc pco).2.length = pco.length
    ∧ (∀ id', ((matureIds a ids pc pco).1.getD id' []).length
        = (pc.getD id' []).length)
    ∧ (∀ x, x ∉ ids → nth (matureIds a ids pc pco).2 x = nth pco x
        ∧ ∀ a', getPC (matureIds a ids pc pco).1 x a' = getPC pc x a')
    ∧ (∀ id ∈ ids, nth (matureIds a ids pc pco).2 id
        = (getPC pc id a).mature.1)) := by
  intro ids
  induction ids with
  | nil =>
    intro pc pco _ _
    exact ⟨rfl, rfl, fun _ => rfl, fun x _ => ⟨rfl, fun _ => rfl⟩,
      fun id hid => absurd hid (by simp)⟩
  | cons id rest ih =>
    intro pc pco hnd hb
    have hbid := hb id (List.mem_cons_self id rest)
    have hnd1 : rest.Nodup := (List.nodup_cons.mp hnd).2
    have hid_nin : id ∉ rest := (List.nodup_cons.mp hnd).1
    have hb1 : ∀ x ∈ rest,
        x < (setPC pc id a (getPC pc id a).mature.2).length
        ∧ x < (pco.set id (getPC pc id a).mature.1).length
        ∧ a < (((setPC pc id a (getPC pc id a).mature.2)).getD x []).length := by
      intro x hx
      have hbx := hb x (List.mem_cons_of_mem id hx)
      exact ⟨by rw [setPC_length]; exact hbx.1, by simpa using hbx.2.1,
        by rw [setPC_row_length _ _ _ _ hbid.1 x]; exact hbx.2.2⟩
    obtain ⟨l1, l2, l3, hout, hin⟩ := ih (setPC pc id a (getPC pc id a).mature.2)
      (pco.set id (getPC pc id a).mature.1) hnd1 hb1
    rw [matureIds]
    refine ⟨l1.trans (setPC_length _ _ _ _), l2.trans (by simp), ?_, ?_, ?_⟩
    · intro id'
      exact (l3 id').trans (setPC_row_length _ _ _ _ hbid.1 id')
    · intro x hx
      have hxid : x ≠ id := fun h => hx (h ▸ List.mem_cons_self id rest)
      have hxrest : x ∉ rest := fun h => hx (List.mem_cons_of_mem id h)
      obtain ⟨o1, o2⟩ := hout x hxrest
      refine ⟨o1.trans (nth_set_ne _ _ _ _ (fun h => hxid h.symm)), ?_⟩
      intro a'
      exact (o2 a').trans (getPC_setPC_ne _ _ _ _ _ _ (fun h => hxid h.symm))
    · intro x hx
      rcases List.mem_cons.mp hx with h | h
      · subst h
        obtain ⟨o1, _⟩ := hout x hid_nin
        exact o1.trans (nth_set_self _ _ _ hbid.2.1)
      · have := hin x h
        rw [this]
        have hne : id ≠ x := fun he => hid_nin (he ▸ h)
        rw [getPC_setPC_ne _ _ _ _ _ _ hne]

theorem matureIds_append (a : ℕ) :
    ∀ (l1 l2 : List ℕ) (pc : List (List Compartment)) (pco : List ℚ),
      matureIds a (l1 ++ l2) pc pco =
        matureIds a l2 (matureIds a l1 pc pco).1 (matureIds a l1 pc pco).2 := by
  intro l1
  induction l1 with
  | nil => intro l2 pc pco; rfl
  | cons x rest ih =>
    intro l2 pc pco
    rw [List.cons_append, matureIds, matureIds, ih]

/-- The per-process maturation loop is the maturation loop over the
concatenation of all process id lists. -/
theorem matureProcs_eq (a : ℕ) :
    ∀ (procs : List Process) (pc : List (List Compartment)) (pco : List ℚ),
      matureProcs a procs pc pco = matureIds a (allIds procs) pc pco := by
  intro procs
  induction procs with
  | nil => intro pc pco; rfl
  | cons pr rest ih =>
    intro pc pco
    rw [show allIds (pr :: rest) = pr.ids ++ allIds rest from rfl,
      matureIds_append, matureProcs, ih]

end Covid

namespace Covid

/-- The per-process seeding writes `nd_out[c]` into `pci[ids[c]]` for
each branch `c`, and touches no other `pci` entry. -/
theorem seedIds_spec (a : ℕ) (nd : List ℚ) (delays : List (List ℚ)) :
    ∀ (ids : List ℕ) (c0 : ℕ) (pc : List (List Compartment)) (pci : List ℚ),
    ids.Nodup → (∀ id ∈ ids, id < pci.length) →
    ((seedIds a nd delays c0 ids pc pci).2.length = pci.length
    ∧ (∀ x, x ∉ ids → nth (seedIds a nd delays c0 ids pc pci).2 x = nth pci x)
    ∧ (∀ k < ids.length,
        nth (seedIds a nd delays c0 ids pc pci).2 (ids.getD k 0)
          = nth nd (c0 + k))) := by
  intro ids
  induction ids with
  | nil =>
    intro c0 pc pci _ _
    exact ⟨rfl, fun x _ => rfl, fun k hk => absurd hk (by simp)⟩
  | cons id rest ih =>
    intro c0 pc pci hnd hb
    have hbid := hb id (List.mem_cons_self id rest)
    have hnd1 : rest.Nodup := (List.nodup_cons.mp hnd).2
    have hid_nin : id ∉ rest := (List.nodup_cons.mp hnd).1
    have hb1 : ∀ x ∈ rest, x < (pci.set id (nth nd c0)).length := by
      intro x hx
      simpa using hb x (List.mem_cons_of_mem id hx)
    obtain ⟨l1, hout, hin⟩ := ih (c0 + 1)
      (setPC pc id a ((getPC pc id a).add (nth nd c0) (delays.getD c0 [])))
      (pci.set id (nth nd c0)) hnd1 hb1
    rw [seedIds]
    refine ⟨l1.trans (by simp), ?_, ?_⟩
    · intro x hx
      have hxid : x ≠ id := fun h => hx (h ▸ List.mem_cons_self id rest)
      have hxrest : x ∉ rest := fun h => hx (List.mem_cons_of_mem id h)
      exact (hout x hxrest).trans (nth_set_ne _ _ _ _ (fun h => hxid h.symm))
    · intro k hk
      cases k with
      | zero =>
        have h0 : (id :: rest).getD 0 0 = id := rfl
        rw [h0, hout id hid_nin, nth_set_self _ _ _ hbid]
        rfl
      | succ n =>
        have hn : (id :: rest).getD (n + 1) 0 = rest.getD n 0 := by
          simp [List.getD]
        rw [hn, hin n (by simpa using hk)]
        congr 1
        omega

/-- The process seeding loop: each process's `pci` entries receive that
process's branch allocation for this age group, resolved against the
post-maturation `pco`; `pco` itself is read-only here. -/
theorem seedProcs_spec (P : Params) (r : Rand) (a : ℕ) (fl : Flows) :
    ∀ (procs : List Process) (pc : List (List Compartment)) (pci pco : List ℚ),
    (allIds procs).Nodup → (∀ id ∈ allIds procs, id < pci.length) →
    ((seedProcs P r a fl procs pc pci pco).2.length = pci.length
    ∧ (∀ x, x ∉ allIds procs →
        nth (seedProcs P r a fl procs pc pci pco).2 x = nth pci x)
    ∧ (∀ pr ∈ procs, ∀ k < pr.ids.length,
        nth (seedProcs P r a fl procs pc pci pco).2 (pr.ids.getD k 0)
          = nth (procEnter P r a fl pco pr) k)) := by
  intro procs
  induction procs with
  | nil =>
    intro pc pci pco _ _
    exact ⟨rfl, fun x _ => rfl, fun pr hpr => absurd hpr (by simp)⟩
  | cons pr rest ih =>
    intro pc pci pco hnd hb
    have hall : allIds (pr :: rest) = pr.ids ++ allIds rest := rfl
    rw [hall] at hnd hb
    rw [List.nodup_append] at hnd
    obtain ⟨hnd1, hnd2, hdisj⟩ := hnd
    have hb1 : ∀ id ∈ pr.ids, id < pci.length := by
      intro id hid; exact hb id (List.mem_append_left _ hid)
    obtain ⟨s1, sout, sin⟩ := seedIds_spec a
      (multinomH P r (sourceOf pr.source_id fl pco) (pr.prob.getD a []))
      pr.delays pr.ids 0 pc pci hnd1 hb1
    have hb2 : ∀ id ∈ allIds rest,
        id < ((seedIds a (multinomH P r (sourceOf pr.source_id fl pco)
          (pr.prob.getD a [])) pr.delays 0 pr.ids pc pci).2).length := by
      intro id hid
      rw [s1]
      exact hb id (List.mem_append_right _ hid)
    obtain ⟨l1, hout, hin⟩ := ih
      (seedIds a (multinomH P r (sourceOf pr.source_id fl pco)
        (pr.prob.getD a [])) pr.delays 0 pr.ids pc pci).1
      (seedIds a (multinomH P r (sourceOf pr.source_id fl pco)
        (pr.prob.getD a [])) pr.delays 0 pr.ids pc pci).2
      pco hnd2 hb2
    rw [seedProcs]
    refine ⟨l1.trans s1, ?_, ?_⟩
    · intro x hx
      have hx1 : x ∉ pr.ids := fun h => hx (List.mem_append_left _ h)
      have hx2 : x ∉ allIds rest := fun h => hx (List.mem_append_right _ h)
      exact (hout x hx2).trans (sout x hx1)
    · intro q hq k hk
      rcases List.mem_cons.mp hq with h | h
      · subst h
        have hmem : q.ids.getD k 0 ∈ q.ids := getD_mem _ _ _ hk
        have hnin : q.ids.getD k 0 ∉ allIds rest := hdisj hmem
        rw [hout _ hnin, sin k hk]
        simp [procEnter]
      · exact hin q h k hk

end Covid

namespace Covid

/-- The incidence column write for one process: the cell of a listed
column gains exactly the `pci` entry of its bound compartment id. -/
theorem addICols_get (t : ℚ) (p a : ℕ) (pci : List ℚ) :
    ∀ (pairs : List (ℕ × ℕ)) (rep : Reporter) (col id : ℕ),
      (col, id) ∈ pairs → (pairs.map Prod.fst).Nodup →
      (addICols t p a pci pairs rep).data col
          (rowIdx rep.t0 rep.npop rep.nage t p a) =
        rep.data col (rowIdx rep.t0 rep.npop rep.nage t p a) + nth pci id := by
  intro pairs
  induction pairs with
  | nil => intro rep col id hmem _; exact absurd hmem (by simp)
  | cons ci rest ih =>
    intro rep col id hmem hnd
    simp only [List.map_cons, List.nodup_cons] at hnd
    obtain ⟨hci_nin, hnd2⟩ := hnd
    rw [addICols]
    rcases List.mem_cons.mp hmem with h | h
    · have hc1 : ci.1 = col := by rw [← h]
      have hc2 : ci.2 = id := by rw [← h]
      rw [addICols_data_cne t p a pci rest _ col _ ?hne]
      case hne =>
        intro x hx hcx
        refine hci_nin ?_
        rw [hc1, hcx]
        exact List.mem_map_of_mem Prod.fst hx
      rw [accum_data]
      rw [if_pos ⟨hc1.symm, rfl⟩, hc2]
    · have hcol_mem : col ∈ rest.map Prod.fst :=
        List.mem_map_of_mem Prod.fst h
      have hne : col ≠ ci.1 := fun he => hci_nin (he ▸ hcol_mem)
      have hres := ih (rep.accum t p a ci.1 (nth pci ci.2)) col id h hnd2
      rw [accum_t0, accum_npop, accum_nage] at hres
      rw [hres]
      simp only [Reporter.accum, setCell_data]
      rw [if_neg (fun hx => hne hx.1)]

theorem addOCols_get (t : ℚ) (p a : ℕ) (pco : List ℚ) :
    ∀ (pairs : List (ℕ × ℕ)) (rep : Reporter) (col id : ℕ),
      (col, id) ∈ pairs → (pairs.map Prod.fst).Nodup →
      (addOCols t p a pco pairs rep).data col
          (rowIdx rep.t0 rep.npop rep.nage t p a) =
        rep.data col (rowIdx rep.t0 rep.npop rep.nage t p a) + nth pco id := by
  intro pairs
  induction pairs with
  | nil => intro rep col id hmem _; exact absurd hmem (by simp)
  | cons ci rest ih =>
    intro rep col id hmem hnd
    simp only [List.map_cons, List.nodup_cons] at hnd
    obtain ⟨hci_nin, hnd2⟩ := hnd
    rw [addOCols]
    rcases List.mem_cons.mp hmem with h | h
    · have hc1 : ci.1 = col := by rw [← h]
      have hc2 : ci.2 = id := by rw [← h]
      rw [addOCols_data_cne t p a pco rest _ col _ ?hne]
      case hne =>
        intro x hx hcx
        refine hci_nin ?_
        rw [hc1, hcx]
        exact List.mem_map_of_mem Prod.fst hx
      rw [accum_data]
      rw [if_pos ⟨hc1.symm, rfl⟩, hc2]
    · have hcol_mem : col ∈ rest.map Prod.fst :=
        List.mem_map_of_mem Prod.fst h
      have hne : col ≠ ci.1 := fun he => hci_nin (he ▸ hcol_mem)
      have hres := ih (rep.accum t p a ci.1 (nth pco ci.2)) col id h hnd2
      rw [accum_t0, accum_npop, accum_nage] at hres
      rw [hres]
      simp only [Reporter.accum, setCell_data]
      rw [if_neg (fun hx => hne hx.1)]

/-- Over the whole process list, an incidence column cell gains exactly
its own process's `pci` entry, provided all incidence/outcidence columns
are distinct. -/
theorem incProcs_get_i (t : ℚ) (p a : ℕ) (pci pco : List ℚ) :
    ∀ (procs : List Process) (rep : Reporter) (pr : Process) (col id : ℕ),
      pr ∈ procs → (col, id) ∈ pr.i_cols.zip pr.i_ids →
      (procs.foldr (fun q acc => q.i_cols ++ q.o_cols ++ acc) []).Nodup →
      (incProcs t p a pci pco procs rep).data col
          (rowIdx rep.t0 rep.npop rep.nage t p a) =
        rep.data col (rowIdx rep.t0 rep.npop rep.nage t p a) + nth pci id := by
  intro procs
  induction procs with
  | nil => intro rep pr col id hpr _ _; exact absurd hpr (by simp)
  | cons q rest ih =>
    intro rep pr col id hpr hci hnd
    simp only [List.foldr_cons] at hnd
    rw [List.nodup_append] at hnd
    obtain ⟨hndTop, hndR, hdisjTop⟩ := hnd
    rw [List.nodup_append] at hndTop
    obtain ⟨hndI, hndO, hdisjI_O⟩ := hndTop
    rw [incProcs]
    rcases List.mem_cons.mp hpr with h | h
    · subst h
      have hcolI : col ∈ pr.i_cols := (List.of_mem_zip hci).1
      have hnf : col ∉ rest.foldr (fun q acc => q.i_cols ++ q.o_cols ++ acc) [] :=
        hdisjTop (List.mem_append_left _ hcolI)
      have hn_rest : ∀ q' ∈ rest, col ∉ q'.i_cols ∧ col ∉ q'.o_cols := by
        rw [mem_incFold] at hnf
        push_neg at hnf
        exact hnf
      rw [incProcs_data_cne t p a pci pco rest _ col _ hn_rest]
      have hnO : ∀ x ∈ pr.o_cols.zip pr.o_ids, col ≠ x.1 := by
        intro x hx hcx
        exact hdisjI_O hcolI (hcx ▸ (List.of_mem_zip hx).1)
      rw [addOCols_data_cne t p a pco _ _ col _ hnO]
      exact addICols_get t p a pci _ rep col id hci
        (hndI.sublist (map_fst_zip_sublist _ _))
    · have hcol_fold : col ∈
          rest.foldr (fun q acc => q.i_cols ++ q.o_cols ++ acc) [] := by
        rw [mem_incFold]
        exact ⟨pr, h, Or.inl (List.of_mem_zip hci).1⟩
      have hnI : ∀ x ∈ q.i_cols.zip q.i_ids, col ≠ x.1 := by
        intro x hx hcx
        refine hdisjTop ?_ hcol_fold
        exact List.mem_append_left _ (hcx ▸ (List.of_mem_zip hx).1)
      have hnO : ∀ x ∈ q.o_cols.zip q.o_ids, col ≠ x.1 := by
        intro x hx hcx
        refine hdisjTop ?_ hcol_fold
        exact List.mem_append_right _ (hcx ▸ (List.of_mem_zip hx).1)
      have hmI := addICols_meta t p a pci (q.i_cols.zip q.i_ids) rep
      have hmO := addOCols_meta t p a pco (q.o_cols.zip q.o_ids)
        (addICols t p a pci (q.i_cols.zip q.i_ids) rep)
      have hres := ih (addOCols t p a pco (q.o_cols.zip q.o_ids)
        (addICols t p a pci (q.i_cols.zip q.i_ids) rep)) pr col id h hci hndR
      rw [hmO.1, hmO.2.1, hmO.2.2, hmI.1, hmI.2.1, hmI.2.2] at hres
      rw [hres]
      rw [addOCols_data_cne t p a pco _ _ col _ hnO,
        addICols_data_cne t p a pci _ _ col _ hnI]

/-- Over the whole process list, an outcidence column cell gains exactly
its own process's `pco` entry. -/
theorem incProcs_get_o (t : ℚ) (p a : ℕ) (pci pco : List ℚ) :
    ∀ (procs : List Process) (rep : Reporter) (pr : Process) (col id : ℕ),
      pr ∈ procs → (col, id) ∈ pr.o_cols.zip pr.o_ids →
      (procs.foldr (fun q acc => q.i_cols ++ q.o_cols ++ acc) []).Nodup →
      (incProcs t p a pci pco procs rep).data col
          (rowIdx rep.t0 rep.npop rep.nage t p a) =
        rep.data col (rowIdx rep.t0 rep.npop rep.nage t p a) + nth pco id := by
  intro procs
  induction procs with
  | nil => intro rep pr col id hpr _ _; exact absurd hpr (by simp)
  | cons q rest ih =>
    intro rep pr col id hpr hci hnd
    simp only [List.foldr_cons] at hnd
    rw [List.nodup_append] at hnd
    obtain ⟨hndTop, hndR, hdisjTop⟩ := hnd
    rw [List.nodup_append] at hndTop
    obtain ⟨hndI, hndO, hdisjI_O⟩ := hndTop
    rw [incProcs]
    rcases List.mem_cons.mp hpr with h | h
    · subst h
      have hcolO : col ∈ pr.o_cols := (List.of_mem_zip hci).1
      have hnf : col ∉ rest.foldr (fun q acc => q.i_cols ++ q.o_cols ++ acc) [] :=
        hdisjTop (List.mem_append_right _ hcolO)
      have hn_rest : ∀ q' ∈ rest, col ∉ q'.i_cols ∧ col ∉ q'.o_cols := by
        rw [mem_incFold] at hnf
        push_neg at hnf
        exact hnf
      rw [incProcs_data_cne t p a pci pco rest _ col _ hn_rest]
      have hmI := addICols_meta t p a pci (pr.i_cols.zip pr.i_ids) rep
      have hres := addOCols_get t p a pco (pr.o_cols.zip pr.o_ids)
        (addICols t p a pci (pr.i_cols.zip pr.i_ids) rep) col id hci
        (hndO.sublist (map_fst_zip_sublist _ _))
      rw [hmI.1, hmI.2.1, hmI.2.2] at hres
      rw [hres]
      have hnI : ∀ x ∈ pr.i_cols.zip pr.i_ids, col ≠ x.1 := by
        intro x hx hcx
        exact hdisjI_O (hcx ▸ (List.of_mem_zip hx).1) hcolO
      rw [addICols_data_cne t p a pci _ _ col _ hnI]
    · have hcol_fold : col ∈
          rest.foldr (fun q acc => q.i_cols ++ q.o_cols ++ acc) [] := by
        rw [mem_incFold]
        exact ⟨pr, h, Or.inr (List.of_mem_zip hci).1⟩
      have hnI : ∀ x ∈ q.i_cols.zip q.i_ids, col ≠ x.1 := by
        intro x hx hcx
        refine hdisjTop ?_ hcol_fold
        exact List.mem_append_left _ (hcx ▸ (List.of_mem_zip hx).1)
      have hnO : ∀ x ∈ q.o_cols.zip q.o_ids, col ≠ x.1 := by
        intro x hx hcx
        refine hdisjTop ?_ hcol_fold
        exact List.mem_append_right _ (hcx ▸ (List.of_mem_zip hx).1)
      have hmI := addICols_meta t p a pci (q.i_cols.zip q.i_ids) rep
      have hmO := addOCols_meta t p a pco (q.o_cols.zip q.o_ids)
        (addICols t p a pci (q.i_cols.zip q.i_ids) rep)
      have hres := ih (addOCols t p a pco (q.o_cols.zip q.o_ids)
        (addICols t p a pci (q.i_cols.zip q.i_ids) rep)) pr col id h hci hndR
      rw [hmO.1, hmO.2.1, hmO.2.2, hmI.1, hmI.2.1, hmI.2.2] at hres
      rw [hres]
      rw [addOCols_data_cne t p a pco _ _ col _ hnO,
        addICols_data_cne t p a pci _ _ col _ hnI]

end Covid

namespace Covid

theorem popTickAge_pco (P : Params) (r : Rand) (t lam : ℚ) (a : ℕ)
    (st : PopState) (rep : Reporter) :
    (popTickAge P r t lam a st rep).1.pco =
      (matureProcs a P.processes st.pc st.pco).2 := rfl

theorem popTickAge_pci (P : Params) (r : Rand) (t lam : ℚ) (a : ℕ)
    (st : PopState) (rep : Reporter) :
    (popTickAge P r t lam a st rep).1.pci =
      (seedProcs P r a (builtinStep P r lam a st).2 P.processes
        (matureProcs a P.processes st.pc st.pco).1 st.pci
        (matureProcs a P.processes st.pc st.pco).2).2 := rfl

theorem accum_data_ne (rep : Reporter) (t : ℚ) (p a c0 : ℕ) (v : ℚ)
    (c r : ℕ) (h : c ≠ c0) :
    (rep.accum t p a c0 v).data c r = rep.data c r := by
  simp only [Reporter.accum, setCell_data]
  rw [if_neg (fun hx => h hx.1)]

/-- C10: although `pci`/`pco` are single per-compartment scalars shared
across age groups and overwritten in every age iteration, within one age
iteration every process compartment's maturation is recorded in `pco`
before any process seeds (so chained hookpoints read this age group's
maturations), each process's `pci` entries hold exactly this age group's
branch allocation, and the incidence/outcidence reporter cells gain
exactly those same-iteration scalars. -/
theorem C10_process_scratch (P : Params) (r : Rand) (t lam : ℚ) (a : ℕ)
    (st : PopState) (rep : Reporter)
    (hnd : (allIds P.processes).Nodup)
    (hbound : ∀ id ∈ allIds P.processes,
      id < st.pco.length ∧ id < st.pci.length ∧ id < st.pc.length ∧
        a < (st.pc.getD id []).length)
    (hio : (P.processes.foldr (fun q acc => q.i_cols ++ q.o_cols ++ acc) []).Nodup)
    (h68 : ∀ c ∈ P.processes.foldr (fun q acc => q.i_cols ++ q.o_cols ++ acc) [],
      c ∉ ([6, 7, 8] : List ℕ) ∧ c ∉ prevChans P.processes) :
    (∀ pr ∈ P.processes, ∀ k < pr.ids.length,
      nth (popTickAge P r t lam a st rep).1.pco (pr.ids.getD k 0) =
        (getPC st.pc (pr.ids.getD k 0) a).mature.1)
    ∧ (∀ pr ∈ P.processes, ∀ k < pr.ids.length,
        nth (popTickAge P r t lam a st rep).1.pci (pr.ids.getD k 0) =
          nth (procEnter P r a (builtinStep P r lam a st).2
            (popTickAge P r t lam a st rep).1.pco pr) k)
    ∧ (∀ pr ∈ P.processes, ∀ ci ∈ pr.i_cols.zip pr.i_ids,
        (popTickAge P r t lam a st rep).2.data ci.1
            (rowIdx rep.t0 rep.npop rep.nage t st.pindex a) =
          rep.data ci.1 (rowIdx rep.t0 rep.npop rep.nage t st.pindex a) +
            nth (popTickAge P r t lam a st rep).1.pci ci.2)
    ∧ (∀ pr ∈ P.processes, ∀ ci ∈ pr.o_cols.zip pr.o_ids,
        (popTickAge P r t lam a st rep).2.data ci.1
            (rowIdx rep.t0 rep.npop rep.nage t st.pindex a) =
          rep.data ci.1 (rowIdx rep.t0 rep.npop rep.nage t st.pindex a) +
            nth (popTickAge P r t lam a st rep).1.pco ci.2) := by
  have hmat := matureIds_spec a (allIds P.processes) st.pc st.pco hnd
    (fun id hid => ⟨(hbound id hid).2.2.1, (hbound id hid).1, (hbound id hid).2.2.2⟩)
  have hseed := seedProcs_spec P r a (builtinStep P r lam a st).2 P.processes
    (matureProcs a P.processes st.pc st.pco).1 st.pci
    (matureProcs a P.processes st.pc st.pco).2 hnd
    (fun id hid => (hbound id hid).2.1)
  have hrep1meta : ∀ rp : Reporter,
      (if isIntTime t then reportPrev t P.processes st a rp else rp).t0 = rp.t0
      ∧ (if isIntTime t then reportPrev t P.processes st a rp else rp).npop = rp.npop
      ∧ (if isIntTime t then reportPrev t P.processes st a rp else rp).nage = rp.nage := by
    intro rp
    by_cases hI : isIntTime t
    · rw [if_pos hI]
      exact reportPrev_meta t P.processes st a rp
    · rw [if_neg hI]
      exact ⟨rfl, rfl, rfl⟩
  have hcolfacts : ∀ col ∈ P.processes.foldr
      (fun q acc => q.i_cols ++ q.o_cols ++ acc) [],
      (if isIntTime t then reportPrev t P.processes st a rep else rep).data col
          (rowIdx rep.t0 rep.npop rep.nage t st.pindex a)
        = rep.data col (rowIdx rep.t0 rep.npop rep.nage t st.pindex a) := by
    intro col hcol
    have hprev := (h68 col hcol).2
    rw [mem_prevChans] at hprev
    push_neg at hprev
    by_cases hI : isIntTime t
    · rw [if_pos hI]
      exact reportPrev_data_ne t P.processes st a rep col _ hprev.1 hprev.2
    · rw [if_neg hI]
  refine ⟨?_, ?_, ?_, ?_⟩
  · intro pr hpr k hk
    rw [popTickAge_pco, matureProcs_eq]
    exact hmat.2.2.2.2 _ ((mem_allIds _ _).mpr ⟨pr, hpr, getD_mem _ _ _ hk⟩)
  · intro pr hpr k hk
    rw [popTickAge_pci, popTickAge_pco]
    exact hseed.2.2 pr hpr k hk
  · intro pr hpr ci hci
    obtain ⟨col, id⟩ := ci
    have hcol : col ∈ P.processes.foldr
        (fun q acc => q.i_cols ++ q.o_cols ++ acc) [] := by
      rw [mem_incFold]
      exact ⟨pr, hpr, Or.inl (List.of_mem_zip hci).1⟩
    have h678 := (h68 col hcol).1
    simp only [List.mem_cons, List.not_mem_nil, or_false, not_or] at h678
    obtain ⟨n6, n7, n8⟩ := h678
    rw [popTickAge_rep]
    simp only [reportInc]
    rw [popTickAge_pindex]
    have hm1 := hrep1meta rep
    have hgot := incProcs_get_i t st.pindex a
      (popTickAge P r t lam a st rep).1.pci
      (popTickAge P r t lam a st rep).1.pco P.processes
      ((((if isIntTime t then reportPrev t P.processes st a rep else rep).accum
        t st.pindex a 6 (builtinStep P r lam a st).2.nIp_Is).accum
        t st.pindex a 7 (builtinStep P r lam a st).2.n_reported).accum
        t st.pindex a 8 (builtinStep P r lam a st).2.nE_Ia)
      pr col id hpr hci hio
    rw [accum_t0, accum_npop, accum_nage] at hgot
    rw [accum_t0, accum_npop, accum_nage] at hgot
    rw [accum_t0, accum_npop, accum_nage] at hgot
    rw [hm1.1, hm1.2.1, hm1.2.2] at hgot
    rw [hgot]
    rw [accum_data_ne _ _ _ _ _ _ _ _ n8, accum_data_ne _ _ _ _ _ _ _ _ n7,
      accum_data_ne _ _ _ _ _ _ _ _ n6, hcolfacts col hcol]
  · intro pr hpr ci hci
    obtain ⟨col, id⟩ := ci
    have hcol : col ∈ P.processes.foldr
        (fun q acc => q.i_cols ++ q.o_cols ++ acc) [] := by
      rw [mem_incFold]
      exact ⟨pr, hpr, Or.inr (List.of_mem_zip hci).1⟩
    have h678 := (h68 col hcol).1
    simp only [List.mem_cons, List.not_mem_nil, or_false, not_or] at h678
    obtain ⟨n6, n7, n8⟩ := h678
    rw [popTickAge_rep]
    simp only [reportInc]
    rw [popTickAge_pindex]
    have hm1 := hrep1meta rep
    have hgot := incProcs_get_o t st.pindex a
      (popTickAge P r t lam a st rep).1.pci
      (popTickAge P r t lam a st rep).1.pco P.processes
      ((((if isIntTime t then reportPrev t P.processes st a rep else rep).accum
        t st.pindex a 6 (builtinStep P r lam a st).2.nIp_Is).accum
        t st.pindex a 7 (builtinStep P r lam a st).2.n_reported).accum
        t st.pindex a 8 (builtinStep P r lam a st).2.nE_Ia)
      pr col id hpr hci hio
    rw [accum_t0, accum_npop, accum_nage] at hgot
    rw [accum_t0, accum_npop, accum_nage] at hgot
    rw [accum_t0, accum_npop, accum_nage] at hgot
    rw [hm1.1, hm1.2.1, hm1.2.2] at hgot
    rw [hgot]
    rw [accum_data_ne _ _ _ _ _ _ _ _ n8, accum_data_ne _ _ _ _ _ _ _ _ n7,
      accum_data_ne _ _ _ _ _ _ _ _ n6, hcolfacts col hcol]

theorem C10_process_scratch_witness :
    nth (popTickAge Pproc rand0 0 0 0 (initPop Pproc 0) rep0).1.pco
        (prcSE.ids.getD 0 0) =
      (getPC (initPop Pproc 0).pc (prcSE.ids.getD 0 0) 0).mature.1
    ∧ nth (popTickAge Pproc rand0 0 0 0 (initPop Pproc 0) rep0).1.pci
        (prcSE.ids.getD 0 0) =
      nth (procEnter Pproc rand0 0
        (builtinStep Pproc rand0 0 0 (initPop Pproc 0)).2
        (popTickAge Pproc rand0 0 0 0 (initPop Pproc 0) rep0).1.pco prcSE) 0
    ∧ (popTickAge Pproc rand0 0 0 0 (initPop Pproc 0) rep0).2.data 10
        (rowIdx rep0.t0 rep0.npop rep0.nage 0 (initPop Pproc 0).pindex 0) =
      rep0.data 10 (rowIdx rep0.t0 rep0.npop rep0.nage 0 (initPop Pproc 0).pindex 0)
        + nth (popTickAge Pproc rand0 0 0 0 (initPop Pproc 0) rep0).1.pci 0
    ∧ (popTickAge Pproc rand0 0 0 0 (initPop Pproc 0) rep0).2.data 11
        (rowIdx rep0.t0 rep0.npop rep0.nage 0 (initPop Pproc 0).pindex 0) =
      rep0.data 11 (rowIdx rep0.t0 rep0.npop rep0.nage 0 (initPop Pproc 0).pindex 0)
        + nth (popTickAge Pproc rand0 0 0 0 (initPop Pproc 0) rep0).1.pco 0 := by
  have hnd : (allIds Pproc.processes).Nodup := by decide
  have hbound : ∀ id ∈ allIds Pproc.processes,
      id < (initPop Pproc 0).pco.length ∧ id < (initPop Pproc 0).pci.length ∧
        id < (initPop Pproc 0).pc.length ∧
        0 < ((initPop Pproc 0).pc.getD id []).length := by decide
  have hio : (Pproc.processes.foldr
      (fun q acc => q.i_cols ++ q.o_cols ++ acc) []).Nodup := by decide
  have h68 : ∀ c ∈ Pproc.processes.foldr
      (fun q acc => q.i_cols ++ q.o_cols ++ acc) [],
      c ∉ ([6, 7, 8] : List ℕ) ∧ c ∉ prevChans Pproc.processes := by decide
  have hthm := C10_process_scratch Pproc rand0 0 0 0 (initPop Pproc 0) rep0
    hnd hbound hio h68
  have hmem : prcSE ∈ Pproc.processes := List.mem_cons_self _ _
  have hk : 0 < prcSE.ids.length := by decide
  have hciI : ((10 : ℕ), (0 : ℕ)) ∈ prcSE.i_cols.zip prcSE.i_ids := by decide
  have hciO : ((11 : ℕ), (0 : ℕ)) ∈ prcSE.o_cols.zip prcSE.o_ids := by decide
  exact ⟨hthm.1 prcSE hmem 0 hk, hthm.2.1 prcSE hmem 0 hk,
    hthm.2.2.1 prcSE hmem (10, 0) hciI, hthm.2.2.2 prcSE hmem (11, 0) hciO⟩

end Covid
